import Mathlib

/-!
Verification development for the WorldSim simulation engine
(`worldsim_engine.py`, `worldsim_agents.py`).

The engine is embedded shallowly over ℚ:
* Python floats become rationals;
* the four-key resource dictionaries become the `ResMap` structure;
* the region dictionary becomes a total function `String → Region`
  together with the insertion-ordered key list `WorldState.names`;
* randomness is externalised: climate events are supplied as an explicit
  per-cycle list, and the trade system's acceptance draws come from an
  explicit rational stream `rand : ℕ → ℚ` consumed at a running counter,
  mirroring the single `np.random.RandomState` stream of the source.
-/

namespace WorldSim

/-- `np.clip x lo hi` on scalars: `min (max x lo) hi`. -/
def clip (x lo hi : ℚ) : ℚ := min (max x lo) hi

/-- The four resource kinds of `ResourceType` / `RESOURCE_KEYS`. -/
inductive Res : Type
  | water
  | food
  | energy
  | land
deriving DecidableEq, Fintype, Repr

/-- `RESOURCE_KEYS = ["water", "food", "energy", "land"]`. -/
def RESOURCE_KEYS : List Res := [Res.water, Res.food, Res.energy, Res.land]

/-- A `Dict[str, float]` with exactly the four resource keys. -/
structure ResMap : Type where
  water : ℚ
  food : ℚ
  energy : ℚ
  land : ℚ
deriving DecidableEq, Repr

def ResMap.get (m : ResMap) : Res → ℚ
  | Res.water => m.water
  | Res.food => m.food
  | Res.energy => m.energy
  | Res.land => m.land

def ResMap.set (m : ResMap) : Res → ℚ → ResMap
  | Res.water, v => { m with water := v }
  | Res.food, v => { m with food := v }
  | Res.energy, v => { m with energy := v }
  | Res.land, v => { m with land := v }

@[simp] theorem ResMap.get_set_self (m : ResMap) (k : Res) (v : ℚ) :
    (m.set k v).get k = v := by cases k <;> rfl

@[simp] theorem ResMap.get_set_ne (m : ResMap) (k j : Res) (v : ℚ) (h : j ≠ k) :
    (m.set k v).get j = m.get j := by
  cases k <;> cases j <;> first | rfl | exact absurd rfl h

theorem ResMap.ext_get {m m' : ResMap} (h : ∀ k, m.get k = m'.get k) : m = m' := by
  cases m; cases m'
  have hw := h Res.water; have hf := h Res.food
  have he := h Res.energy; have hl := h Res.land
  simp only [ResMap.get] at hw hf he hl
  simp_all

/-- The `Region` dataclass (the fields the dynamics read or write; `name`,
`biome`, `position` and `neighbors` never influence the step pipeline). -/
structure Region : Type where
  resources : ResMap
  max_resources : ResMap
  production_rates : ResMap
  consumption_per_pop : ResMap
  population : ℚ
  max_population : ℚ
  happiness : ℚ
  tech_level : ℚ
  is_alive : Bool
  collapse_cycle : ℤ
deriving DecidableEq, Repr

namespace Region

/-- `resource_ratio`: `resources[res] / max(max_resources[res], 1)`. -/
def resource_ratio (r : Region) (res : Res) : ℚ :=
  r.resources.get res / max (r.max_resources.get res) 1

/-- `total_consumption`: `consumption_per_pop[res] * population`. -/
def total_consumption (r : Region) (res : Res) : ℚ :=
  r.consumption_per_pop.get res * r.population

/-- `surplus`: resources above a 3-cycle consumption buffer. -/
def surplus (r : Region) (res : Res) : ℚ :=
  r.resources.get res - r.total_consumption res * 3

/-- `surplus_resources`: kinds with ratio above 0.55. -/
def surplus_resources (r : Region) : List Res :=
  RESOURCE_KEYS.filter (fun res => r.resource_ratio res > 11/20)

/-- `overall_satisfaction`: `np.mean` of the four resource ratios. -/
def overall_satisfaction (r : Region) : ℚ :=
  (RESOURCE_KEYS.map r.resource_ratio).sum / 4

/-- `clamp_resources`: clip every resource into `[0, max_resources[res]]`. -/
def clamp_resources (r : Region) : Region :=
  RESOURCE_KEYS.foldl
    (fun r res =>
      { r with resources := (r.resources.set res (clip (r.resources.get res) 0 (r.max_resources.get res))) })
    r

/-- Add `d` to resource `res` (the `+=` / `-=` mutations). -/
def addRes (r : Region) (res : Res) (d : ℚ) : Region :=
  { r with resources := r.resources.set res (r.resources.get res + d) }

/-- Overwrite resource `res` (the `=` mutations). -/
def setRes (r : Region) (res : Res) (v : ℚ) : Region :=
  { r with resources := r.resources.set res v }

/-- Multiply resource `res` by a factor (the `*=` mutations). -/
def mulRes (r : Region) (res : Res) (f : ℚ) : Region :=
  { r with resources := r.resources.set res (r.resources.get res * f) }

theorem clamp_resources_def (r : Region) :
    r.clamp_resources =
      { r with resources :=
          ⟨clip r.resources.water 0 r.max_resources.water,
           clip r.resources.food 0 r.max_resources.food,
           clip r.resources.energy 0 r.max_resources.energy,
           clip r.resources.land 0 r.max_resources.land⟩ } := rfl

@[simp] theorem clamp_resources_get (r : Region) (k : Res) :
    r.clamp_resources.resources.get k =
      clip (r.resources.get k) 0 (r.max_resources.get k) := by
  cases k <;> rfl

@[simp] theorem clamp_resources_max (r : Region) :
    r.clamp_resources.max_resources = r.max_resources := rfl

@[simp] theorem clamp_resources_population (r : Region) :
    r.clamp_resources.population = r.population := rfl

@[simp] theorem clamp_resources_is_alive (r : Region) :
    r.clamp_resources.is_alive = r.is_alive := rfl

@[simp] theorem clamp_resources_happiness (r : Region) :
    r.clamp_resources.happiness = r.happiness := rfl

end Region

theorem clip_nonneg {x hi : ℚ} (h : 0 ≤ hi) : 0 ≤ clip x 0 hi := by
  simp only [clip]
  exact le_min (le_max_right x 0) h

theorem clip_le_hi (x lo hi : ℚ) : clip x lo hi ≤ hi := min_le_right _ _

theorem clip_mem {x lo hi : ℚ} (h : lo ≤ hi) :
    lo ≤ clip x lo hi ∧ clip x lo hi ≤ hi :=
  ⟨le_min (le_max_right x lo) h, min_le_right _ _⟩

/-- Kernel-friendly decidability of quantification over the four resource
kinds (the derived `Fintype` instance does not reduce well under `decide`). -/
instance (priority := 2000) resForallDecidable (p : Res → Prop) [DecidablePred p] :
    Decidable (∀ k : Res, p k) :=
  decidable_of_iff (p Res.water ∧ p Res.food ∧ p Res.energy ∧ p Res.land)
    (by
      constructor
      · rintro ⟨h1, h2, h3, h4⟩ k
        cases k <;> assumption
      · intro h
        exact ⟨h Res.water, h Res.food, h Res.energy, h Res.land⟩)

/-- Bounds invariant for a region: every resource lies in
`[0, max_resources[res]]` (spec §8 "Resource bound invariant"). -/
def ResourceBounds (r : Region) : Prop :=
  ∀ k : Res, 0 ≤ r.resources.get k ∧ r.resources.get k ≤ r.max_resources.get k

instance (r : Region) : Decidable (ResourceBounds r) := by
  unfold ResourceBounds; infer_instance

/-- Structural well-formedness the engine maintains and never violates:
non-negative population, coefficients, tech level and capacities. -/
def RegionWf (r : Region) : Prop :=
  0 ≤ r.population ∧ 0 ≤ r.tech_level ∧
  (∀ k : Res, 0 ≤ r.consumption_per_pop.get k) ∧
  (∀ k : Res, 0 ≤ r.production_rates.get k) ∧
  (∀ k : Res, 0 ≤ r.max_resources.get k)

instance (r : Region) : Decidable (RegionWf r) := by
  unfold RegionWf; infer_instance

theorem clamp_resources_bounds {r : Region}
    (h : ∀ k : Res, 0 ≤ r.max_resources.get k) :
    ResourceBounds r.clamp_resources := by
  intro k
  rw [Region.clamp_resources_get, Region.clamp_resources_max]
  exact ⟨clip_nonneg (h k), clip_le_hi _ _ _⟩

theorem resource_ratio_nonneg {r : Region} (k : Res)
    (h : 0 ≤ r.resources.get k) : 0 ≤ r.resource_ratio k := by
  unfold Region.resource_ratio
  have hden : (0:ℚ) < max (r.max_resources.get k) 1 :=
    lt_of_lt_of_le one_pos (le_max_right _ _)
  positivity

theorem resource_ratio_le_one {r : Region} (k : Res)
    (h1 : r.resources.get k ≤ r.max_resources.get k) :
    r.resource_ratio k ≤ 1 := by
  unfold Region.resource_ratio
  have hden : (0:ℚ) < max (r.max_resources.get k) 1 :=
    lt_of_lt_of_le one_pos (le_max_right _ _)
  rw [div_le_one hden]
  exact le_trans h1 (le_max_left _ _)

theorem overall_satisfaction_mem {r : Region} (h : ResourceBounds r) :
    0 ≤ r.overall_satisfaction ∧ r.overall_satisfaction ≤ 1 := by
  have hr : ∀ k : Res, 0 ≤ r.resource_ratio k ∧ r.resource_ratio k ≤ 1 := fun k =>
    ⟨resource_ratio_nonneg k (h k).1, resource_ratio_le_one k (h k).2⟩
  unfold Region.overall_satisfaction RESOURCE_KEYS
  simp only [List.map_cons, List.map_nil, List.sum_cons, List.sum_nil, add_zero]
  constructor
  · have := (hr Res.water).1; have := (hr Res.food).1
    have := (hr Res.energy).1; have := (hr Res.land).1
    positivity
  · have := (hr Res.water).2; have := (hr Res.food).2
    have := (hr Res.energy).2; have := (hr Res.land).2
    linarith

/-! ### Agent actions (`worldsim_agents.ACTIONS` plus the dead sentinel) -/

/-- The nine action tags, plus `nop` standing for the `"none"` sentinel a dead
region's decision carries (it matches no branch of `_apply_action`). -/
inductive Action : Type
  | focus_water
  | focus_food
  | focus_energy
  | expand_land
  | conserve
  | trade
  | research
  | stockpile
  | balance
  | nop
deriving DecidableEq, Repr

/-! ### Trade system (`TradeSystem`) -/

/-- Key of the relationship dict: `tuple(sorted([r1, r2]))`. -/
def pairKey (a b : String) : String × String :=
  if a ≤ b then (a, b) else (b, a)

/-- Association-list lookup (models Python `dict.get`). -/
def lookupRel : List ((String × String) × ℚ) → String × String → Option ℚ
  | [], _ => none
  | (k, v) :: rest, key => if k = key then some v else lookupRel rest key

/-- Association-list write (models Python `dict[key] = v`: updates in place,
inserting at the end when the key is new). -/
def setRelK (l : List ((String × String) × ℚ)) (key : String × String) (v : ℚ) :
    List ((String × String) × ℚ) :=
  if (lookupRel l key).isSome then
    l.map (fun p => if p.1 = key then (key, v) else p)
  else l ++ [(key, v)]

/-- The mutable state of `TradeSystem` that the engine reads and writes
(`trade_history` is an append-only log returned separately). -/
structure TradeState : Type where
  relationship : List ((String × String) × ℚ)
  disrupted : Bool
deriving DecidableEq, Repr

namespace TradeState

/-- `get_rel`: lazily defaults to 0.5. -/
def get_rel (ts : TradeState) (r1 r2 : String) : ℚ :=
  (lookupRel ts.relationship (pairKey r1 r2)).getD (1/2)

/-- `update_rel`: `relationship[key] = np.clip(cur + delta, 0.0, 1.0)`. -/
def update_rel (ts : TradeState) (r1 r2 : String) (delta : ℚ) : TradeState :=
  let key := pairKey r1 r2
  let cur := (lookupRel ts.relationship key).getD (1/2)
  { ts with relationship := setRelK ts.relationship key (clip (cur + delta) 0 1) }

/-- `decay_relationships`: every stored score drops by 0.003, floored at 0.1. -/
def decay_relationships (ts : TradeState) : TradeState :=
  { ts with relationship := ts.relationship.map (fun p => (p.1, max (1/10) (p.2 - 3/1000))) }

/-- The relationship decay applied per target by a `TRADE_DISRUPTION` event
(`_apply_event`): set the one-shot block flag and drop every stored score by
`0.05 * severity`, floored at 0.1. -/
def disrupt (ts : TradeState) (severity : ℚ) : TradeState :=
  { relationship := ts.relationship.map (fun p => (p.1, max (1/10) (p.2 - 1/20 * severity))),
    disrupted := true }

end TradeState

/-- One executed trade (`trade` dict appended to `trade_history`); the source
stores `round(·, 1)` of the two amounts for display, the exact amounts are kept
here. -/
structure TradeRec : Type where
  cycle : ℤ
  buyer : String
  seller : String
  resource_bought : Res
  amount : ℚ
  resource_sold : Res
  exchange_amount : ℚ
deriving DecidableEq, Repr

/-- `dict.setdefault(res, []).append(x)`: append `x` to the bucket of `res`,
creating the bucket at the end on first use. -/
def addToPool {α : Type} : List (Res × List α) → Res → α → List (Res × List α)
  | [], res, x => [(res, [x])]
  | (r, xs) :: rest, res, x =>
    if r = res then (r, xs ++ [x]) :: rest else (r, xs) :: addToPool rest res x

/-- Bucket lookup (`res in pool` / `pool[res]`). -/
def lookupPool {α : Type} : List (Res × List α) → Res → Option (List α)
  | [], _ => none
  | (r, xs) :: rest, res => if r = res then some xs else lookupPool rest res

/-- Bucket overwrite (`pool[res] = ys`; only used on present keys). -/
def setPool {α : Type} : List (Res × List α) → Res → List α → List (Res × List α)
  | [], _, _ => []
  | (r, xs) :: rest, res, ys =>
    if r = res then (r, ys) :: rest else (r, xs) :: setPool rest res ys

/-- Seller pool of `negotiate_trades`: every alive region passively offers, for
each resource with ratio above 0.55, `0.30 × surplus` if that exceeds 5. -/
def buildSellers (names : List String) (regs : String → Region) :
    List (Res × List (String × ℚ)) :=
  names.foldl
    (fun pool name =>
      let region := regs name
      if region.is_alive then
        region.surplus_resources.foldl
          (fun pool res =>
            let amount := region.surplus res * (3/10)
            if amount > 5 then addToPool pool res (name, amount) else pool)
          pool
      else pool)
    []

/-- One deficit resource of one buyer (buyer pool of `negotiate_trades`:
deficit threshold 0.40 for active traders and 0.18 otherwise;
`need = 0.35 × max − current`; the collateral is the first resource in
`RESOURCE_KEYS` order with ratio above 0.45 other than the needed one):
append the entry when the need exceeds 5 and a collateral exists. -/
def buyerDeficitFold (region : Region) (name : String) (surplus_res : List Res)
    (pool : List (Res × List (String × ℚ × Res))) (res : Res) :
    List (Res × List (String × ℚ × Res)) :=
  let need := region.max_resources.get res * (7/20) - region.resources.get res
  if need > 5 then
    match (surplus_res.filter (fun o => o ≠ res)).head? with
    | some offer => addToPool pool res (name, need, offer)
    | none => pool
  else pool

/-- One decision of the buyer-pool construction. -/
def buyerFold (regs : String → Region) (pool : List (Res × List (String × ℚ × Res)))
    (p : String × Action) : List (Res × List (String × ℚ × Res)) :=
  let region := regs p.1
  if region.is_alive then
    let deficit_threshold : ℚ := if p.2 = Action.trade then 2/5 else 9/50
    let deficit_res := RESOURCE_KEYS.filter
      (fun res => region.resource_ratio res < deficit_threshold)
    let surplus_res := RESOURCE_KEYS.filter
      (fun res => region.resource_ratio res > 9/20)
    deficit_res.foldl (buyerDeficitFold region p.1 surplus_res) pool
  else pool

def buildBuyers (decisions : List (String × Action)) (regs : String → Region) :
    List (Res × List (String × ℚ × Res)) :=
  decisions.foldl (buyerFold regs) []

/-- Pointwise update of the region table (an in-place mutation of one entry of
the `regions` dict). -/
def updF (f : String → Region) (n : String) (r : Region) : String → Region :=
  fun m => if m = n then r else f m

@[simp] theorem updF_self (f : String → Region) (n : String) (r : Region) :
    updF f n r n = r := by simp [updF]

@[simp] theorem updF_ne (f : String → Region) (n : String) (r : Region) (m : String)
    (h : m ≠ n) : updF f n r m = f m := by simp [updF, h]

/-- One buyer's scan over the current seller list of a resource (the inner
`for i, (seller_name, available) in enumerate(sellers[resource])` loop):
returns the updated seller list, region table, trade state, the executed trade
(if any) and the advanced draw counter. The stream `rand` supplies the
`rng.random()` draws. -/
def scanSellers (rand : ℕ → ℚ) (cycle : ℤ) (resource : Res) (buyer : String)
    (need : ℚ) (offerRes : Res) :
    List (String × ℚ) → (String → Region) → TradeState → ℕ →
      List (String × ℚ) × (String → Region) × TradeState × Option TradeRec × ℕ
  | [], regs, ts, ctr => ([], regs, ts, none, ctr)
  | (seller, available) :: rest, regs, ts, ctr =>
    if seller = buyer ∨ available < 3 ∨ (regs seller).is_alive = false then
      let out := scanSellers rand cycle resource buyer need offerRes rest regs ts ctr
      ((seller, available) :: out.1, out.2)
    else
      let rel := ts.get_rel buyer seller
      let u := rand ctr
      let ctr' := ctr + 1
      if u > 3/10 + 7/10 * rel then
        let out := scanSellers rand cycle resource buyer need offerRes rest regs ts ctr'
        ((seller, available) :: out.1, out.2)
      else
        let trade_amt := min need (min available 60)
        let exchange_amt := trade_amt * (4/5 + 1/5 * rel)
        if (regs seller).resource_ratio offerRes > 17/20 then
          let out := scanSellers rand cycle resource buyer need offerRes rest regs ts ctr'
          ((seller, available) :: out.1, out.2)
        else
          let buyerR := ((regs buyer).addRes resource trade_amt).addRes offerRes (-exchange_amt)
          let sellerR := ((regs seller).addRes resource (-trade_amt)).addRes offerRes exchange_amt
          let regs₁ := updF regs buyer buyerR
          let regs₂ := updF regs₁ seller sellerR
          let regs₃ := updF regs₂ buyer (regs₂ buyer).clamp_resources
          let regs₄ := updF regs₃ seller (regs₃ seller).clamp_resources
          let trade : TradeRec :=
            { cycle := cycle, buyer := buyer, seller := seller,
              resource_bought := resource, amount := trade_amt,
              resource_sold := offerRes, exchange_amount := exchange_amt }
          let ts' := ts.update_rel buyer seller (1/25)
          ((seller, available - trade_amt) :: rest, regs₄, ts', some trade, ctr')

/-- The loop over one resource's buyer list. -/
def processBuyers (rand : ℕ → ℚ) (cycle : ℤ) (resource : Res) :
    List (String × ℚ × Res) → List (String × ℚ) → (String → Region) → TradeState →
      List TradeRec → ℕ →
      List (String × ℚ) × (String → Region) × TradeState × List TradeRec × ℕ
  | [], slist, regs, ts, trades, ctr => (slist, regs, ts, trades, ctr)
  | (buyer, need, offerRes) :: rest, slist, regs, ts, trades, ctr =>
    let out := scanSellers rand cycle resource buyer need offerRes slist regs ts ctr
    processBuyers rand cycle resource rest out.1 out.2.1 out.2.2.1
      (trades ++ out.2.2.2.1.toList) out.2.2.2.2

/-- The outer matching loop over the buyer pool
(`for resource, buyer_list in buyers.items()`). -/
def processAll (rand : ℕ → ℚ) (cycle : ℤ) :
    List (Res × List (String × ℚ × Res)) → List (Res × List (String × ℚ)) →
      (String → Region) → TradeState → List TradeRec → ℕ →
      (String → Region) × TradeState × List TradeRec × ℕ
  | [], _, regs, ts, trades, ctr => (regs, ts, trades, ctr)
  | (resource, blist) :: rest, sellers, regs, ts, trades, ctr =>
    match lookupPool sellers resource with
    | none => processAll rand cycle rest sellers regs ts trades ctr
    | some slist =>
      let out := processBuyers rand cycle resource blist slist regs ts trades ctr
      processAll rand cycle rest (setPool sellers resource out.1)
        out.2.1 out.2.2.1 out.2.2.2.1 out.2.2.2.2

/-- `TradeSystem.negotiate_trades`. -/
def negotiate_trades (rand : ℕ → ℚ) (ctr : ℕ) (cycle : ℤ) (names : List String)
    (regs : String → Region) (decisions : List (String × Action)) (ts : TradeState) :
    (String → Region) × TradeState × List TradeRec × ℕ :=
  if ts.disrupted then (regs, { ts with disrupted := false }, [], ctr)
  else
    let ts := ts.decay_relationships
    let sellers := buildSellers names regs
    let buyers := buildBuyers decisions regs
    processAll rand cycle buyers sellers regs ts [] ctr

/-! ### Climate events (`EventType`, `World._apply_event`) -/

inductive EventType : Type
  | drought
  | flood
  | earthquake
  | plague
  | bumper_harvest
  | energy_crisis
  | energy_boom
  | water_discovery
  | volcanic_eruption
  | trade_disruption
  | technological_leap
  | no_event
deriving DecidableEq, Repr

/-- One generated event record. The source also carries the cycle and season
labels, which only feed the logs. -/
structure Event : Type where
  etype : EventType
  target : String
  severity : ℚ
  is_global : Bool
deriving DecidableEq, Repr

/-- The per-target body of `_apply_event` (everything except the
`TRADE_DISRUPTION` branch, which touches only the trade system), followed by
the unconditional `clamp_resources()` and population floor. -/
def applyEventBody (t : EventType) (severity : ℚ) (r : Region) : Region :=
  match t with
  | EventType.drought =>
    let r := r.mulRes Res.water (1 - 3/10 * severity)
    let r := r.mulRes Res.food (1 - 12/100 * severity)
    { r with production_rates := (r.production_rates.set Res.water (r.production_rates.get Res.water * max (4/5) (1 - 8/100 * severity))) }
  | EventType.flood =>
    let r := r.mulRes Res.food (1 - 22/100 * severity)
    let r := r.mulRes Res.land (1 - 8/100 * severity)
    r.setRes Res.water (min (r.resources.get Res.water + r.max_resources.get Res.water * (18/100) * severity) (r.max_resources.get Res.water))
  | EventType.earthquake =>
    let r := r.mulRes Res.energy (1 - 18/100 * severity)
    let r := r.mulRes Res.land (1 - 12/100 * severity)
    { r with population := r.population * (1 - 4/100 * severity) }
  | EventType.plague =>
    { r with population := r.population * (1 - 12/100 * severity),
             happiness := r.happiness * (1 - 15/100 * severity) }
  | EventType.bumper_harvest =>
    let r := r.setRes Res.food (min (r.resources.get Res.food + r.max_resources.get Res.food * (25/100) * severity) (r.max_resources.get Res.food))
    { r with happiness := min 1 (r.happiness + 5/100 * severity) }
  | EventType.energy_crisis =>
    let r := r.mulRes Res.energy (1 - 28/100 * severity)
    { r with production_rates := (r.production_rates.set Res.energy (r.production_rates.get Res.energy * max (85/100) (1 - 4/100 * severity))) }
  | EventType.energy_boom =>
    let r := r.setRes Res.energy (min (r.resources.get Res.energy + r.max_resources.get Res.energy * (22/100) * severity) (r.max_resources.get Res.energy))
    { r with production_rates := (r.production_rates.set Res.energy (r.production_rates.get Res.energy * (1 + 4/100 * severity))) }
  | EventType.water_discovery =>
    let r := r.setRes Res.water (min (r.resources.get Res.water + r.max_resources.get Res.water * (18/100) * severity) (r.max_resources.get Res.water))
    { r with production_rates := (r.production_rates.set Res.water (r.production_rates.get Res.water * (1 + 4/100 * severity))) }
  | EventType.volcanic_eruption =>
    let r := r.mulRes Res.land (1 - 18/100 * severity)
    let r := r.setRes Res.energy (min (r.resources.get Res.energy + r.max_resources.get Res.energy * (12/100) * severity) (r.max_resources.get Res.energy))
    { r with population := r.population * (1 - 8/100 * severity) }
  | EventType.trade_disruption => r
  | EventType.technological_leap =>
    { r with tech_level := min 3 (r.tech_level + 15/100 * severity),
             happiness := min 1 (r.happiness + 5/100) }
  | EventType.no_event => r

/-- `_apply_event` per target region: event body, then `clamp_resources()` and
`population = max(0, population)`. -/
def applyEventTarget (t : EventType) (severity : ℚ) (r : Region) : Region :=
  let r := (applyEventBody t severity r).clamp_resources
  { r with population := max 0 r.population }

/-! ### World (`World.step` and its phases) -/

/-- The mutable world state the step pipeline reads and writes. The history
buffers are pure logs and are accumulated by `runSim` instead. -/
structure WorldState : Type where
  names : List String
  regs : String → Region
  cycle : ℤ
  ts : TradeState

/-- Phase 1 — natural production. The source loops over the region dict and
over `RESOURCE_KEYS` sequentially; each key is written exactly once and `land`
(the only key read across iterations, as `land_factor`) is written last, so
the loop acts pointwise per region. -/
def prodRegion (r : Region) : Region :=
  RESOURCE_KEYS.foldl
    (fun r res =>
      let land_factor := if res = Res.land then 1 else r.resource_ratio Res.land
      let prod := r.production_rates.get res * r.tech_level * (1/2 + 1/2 * land_factor)
      r.setRes res (min (r.resources.get res + prod) (r.max_resources.get res)))
    r

/-- Phase 2 — population consumption, floored at 0. -/
def consRegion (r : Region) : Region :=
  RESOURCE_KEYS.foldl
    (fun r res =>
      r.setRes res (max 0 (r.resources.get res - r.consumption_per_pop.get res * r.population)))
    r

/-- Phase 3 — `World._apply_action`: the chosen action's effect followed by
`clamp_resources()`. Unmatched tags (`trade`, `nop`) fall through to the
clamp. -/
def applyAction (action : Action) (r : Region) : Region :=
  let r :=
    match action with
    | Action.focus_water => r.addRes Res.water (r.production_rates.get Res.water * (1/2) * r.tech_level)
    | Action.focus_food => r.addRes Res.food (r.production_rates.get Res.food * (1/2) * r.tech_level)
    | Action.focus_energy => r.addRes Res.energy (r.production_rates.get Res.energy * (1/2) * r.tech_level)
    | Action.expand_land => r.setRes Res.land (min (r.resources.get Res.land + 12 * r.tech_level) (r.max_resources.get Res.land))
    | Action.conserve =>
      let r := r.addRes Res.water (r.consumption_per_pop.get Res.water * r.population * (35/100))
      let r := r.addRes Res.food (r.consumption_per_pop.get Res.food * r.population * (35/100))
      let r := r.addRes Res.energy (r.consumption_per_pop.get Res.energy * r.population * (35/100))
      { r with happiness := r.happiness * (98/100) }
    | Action.research => { r with tech_level := min 3 (r.tech_level + 18/1000) }
    | Action.trade => r
    | Action.stockpile =>
      let r := { r with max_resources := (r.max_resources.set Res.water (r.max_resources.get Res.water * (1004/1000))) }
      let r := { r with max_resources := (r.max_resources.set Res.food (r.max_resources.get Res.food * (1004/1000))) }
      { r with max_resources := (r.max_resources.set Res.energy (r.max_resources.get Res.energy * (1004/1000))) }
    | Action.balance =>
      let r := r.addRes Res.water (r.production_rates.get Res.water * (12/100) * r.tech_level)
      let r := r.addRes Res.food (r.production_rates.get Res.food * (12/100) * r.tech_level)
      r.addRes Res.energy (r.production_rates.get Res.energy * (12/100) * r.tech_level)
    | Action.nop => r
  r.clamp_resources

/-- Association lookup in the decision dict. -/
def lookupDec : List (String × Action) → String → Option Action
  | [], _ => none
  | (n, a) :: rest, name => if n = name then some a else lookupDec rest name

/-- Phase 6 — demographics and happiness for one (alive) region, including the
collapse check. `act` is this region's entry of the decision dict. -/
def demRegion (cycle : ℤ) (act : Option Action) (r : Region) : Region :=
  let sat := r.overall_satisfaction
  let happiness := (7/10) * r.happiness + (3/10) * sat
  let growth₀ : ℚ :=
    if sat > 9/20 then (18/1000) * (sat - 9/20) * happiness
    else -(28/1000) * (9/20 - sat)
  let growth := growth₀
    - (if r.resource_ratio Res.water < 1/10 then (4/100 : ℚ) else 0)
    - (if r.resource_ratio Res.food < 1/10 then (4/100 : ℚ) else 0)
  let population := clip (r.population * (1 + growth)) 0 r.max_population
  let tech_level :=
    if act ≠ some Action.research then min 3 (r.tech_level + 2/1000) else r.tech_level
  let r' := { r with happiness := happiness, population := population, tech_level := tech_level }
  if population < 5 then { r' with is_alive := false, collapse_cycle := cycle } else r'

/-- The target list of one event: all alive regions for a global event, the
named region if it exists and is alive otherwise. -/
def eventTargets (w : WorldState) (e : Event) : List String :=
  if e.is_global then w.names.filter (fun n => (w.regs n).is_alive)
  else if w.names.contains e.target ∧ (w.regs e.target).is_alive then [e.target]
  else []

/-- Phase 4 — apply one event: collect the (alive) targets, then run the
per-target body; a `TRADE_DISRUPTION` additionally hits the trade system once
per target, exactly as the source's per-target loop does. -/
def applyEvent (w : WorldState) (e : Event) : WorldState :=
  (eventTargets w e).foldl
    (fun w n =>
      let ts := if e.etype = EventType.trade_disruption then w.ts.disrupt e.severity else w.ts
      { w with ts := ts, regs := updF w.regs n (applyEventTarget e.etype e.severity (w.regs n)) })
    w

/-- Phase 1 — natural production, pointwise over the region dict. -/
def phaseProd (w : WorldState) : WorldState :=
  { w with regs := fun n =>
      if w.names.contains n ∧ (w.regs n).is_alive then prodRegion (w.regs n) else w.regs n }

/-- Phase 2 — population consumption, pointwise over the region dict. -/
def phaseCons (w : WorldState) : WorldState :=
  { w with regs := fun n =>
      if w.names.contains n ∧ (w.regs n).is_alive then consRegion (w.regs n) else w.regs n }

/-- Phase 3 — agent actions (iterates the decision dict). -/
def phaseActions (decisions : List (String × Action)) (w : WorldState) : WorldState :=
  { w with regs := fun n =>
      match lookupDec decisions n with
      | some a => if (w.regs n).is_alive then applyAction a (w.regs n) else w.regs n
      | none => w.regs n }

/-- Phase 4 — all generated events in order. -/
def phaseEvents (evts : List Event) (w : WorldState) : WorldState :=
  evts.foldl applyEvent w

/-- Phase 6 — demographics, happiness and the collapse check, pointwise over
the region dict. -/
def phaseDem (decisions : List (String × Action)) (w : WorldState) : WorldState :=
  { w with regs := fun n =>
      if w.names.contains n ∧ (w.regs n).is_alive then
        demRegion w.cycle (lookupDec decisions n) (w.regs n)
      else w.regs n }

/-- `World.step`: the seven ordered phases. `evts` stands for the PRNG-driven
output of `ClimateSystem.generate_events` this cycle; `rand`/`ctr` drive the
trade-acceptance draws. Returns the new state, the executed trades and the
advanced draw counter. -/
def step (evts : List Event) (rand : ℕ → ℚ) (decisions : List (String × Action))
    (w : WorldState) (ctr : ℕ) : WorldState × List TradeRec × ℕ :=
  let w₀ : WorldState := { w with cycle := w.cycle + 1 }
  let w₄ := phaseEvents evts (phaseActions decisions (phaseCons (phaseProd w₀)))
  let tr := negotiate_trades rand ctr w₄.cycle w₄.names w₄.regs decisions w₄.ts
  let w₅ : WorldState := { w₄ with regs := tr.1, ts := tr.2.1 }
  (phaseDem decisions w₅, tr.2.2.1, tr.2.2.2)

/-- Iterated stepping: each later cycle comes with its own events, acceptance
stream and decision dict. -/
def multiStep : List (List Event × (ℕ → ℚ) × List (String × Action)) → WorldState → WorldState
  | [], w => w
  | (evts, rand, decisions) :: rest, w => multiStep rest (step evts rand decisions w 0).1

/-- Full simulation run (`World.step` in a loop): each cycle consumes that
cycle's generated events and decision dict, threading the acceptance-draw
counter, and appends the cycle's events and trades to the log. -/
def runSim (ev : ℤ → List Event) (rand : ℕ → ℚ) (dec : ℤ → List (String × Action)) :
    ℕ → WorldState → ℕ → List (List Event × List TradeRec) →
      WorldState × ℕ × List (List Event × List TradeRec)
  | 0, w, ctr, log => (w, ctr, log)
  | Nat.succ n, w, ctr, log =>
    let evts := ev (w.cycle + 1)
    let out := step evts rand (dec (w.cycle + 1)) w ctr
    runSim ev rand dec n out.1 out.2.2 (log ++ [(evts, out.2.1)])

/-! ### Initial world (`World.__init__` / `_init_regions`, `REGION_CONFIGS`) -/

/-- Build one configured region: `happiness=0.50`, `tech_level=1.0`,
`is_alive=True`, `collapse_cycle=-1`. -/
def mkRegion (resources max_resources production_rates consumption_per_pop : ResMap)
    (population max_population : ℚ) : Region :=
  { resources := resources, max_resources := max_resources,
    production_rates := production_rates, consumption_per_pop := consumption_per_pop,
    population := population, max_population := max_population,
    happiness := 1/2, tech_level := 1, is_alive := true, collapse_cycle := -1 }

def initNames : List String :=
  ["Verdantia", "Aridia", "Temperalis", "Borealis",
   "Glaciera", "Maritosa", "Montarok", "Fluviana"]

/-- A region name outside the dict (never reachable through `initNames`). -/
def defaultRegion : Region :=
  { resources := ⟨0, 0, 0, 0⟩, max_resources := ⟨0, 0, 0, 0⟩,
    production_rates := ⟨0, 0, 0, 0⟩, consumption_per_pop := ⟨0, 0, 0, 0⟩,
    population := 0, max_population := 0, happiness := 1/2, tech_level := 1,
    is_alive := false, collapse_cycle := -1 }

/-- `REGION_CONFIGS`, keyed by name. -/
def initRegs : String → Region := fun n =>
  if n = "Verdantia" then
    mkRegion ⟨800, 700, 300, 500⟩ ⟨1000, 1000, 600, 600⟩ ⟨38, 42, 10, 3⟩
      ⟨25/100, 20/100, 10/100, 3/100⟩ 120 500
  else if n = "Aridia" then
    mkRegion ⟨200, 300, 800, 700⟩ ⟨500, 600, 1000, 900⟩ ⟨8, 14, 48, 5⟩
      ⟨30/100, 20/100, 15/100, 2/100⟩ 80 300
  else if n = "Temperalis" then
    mkRegion ⟨600, 600, 500, 600⟩ ⟨800, 800, 700, 800⟩ ⟨28, 32, 22, 4⟩
      ⟨20/100, 20/100, 15/100, 3/100⟩ 150 600
  else if n = "Borealis" then
    mkRegion ⟨500, 400, 600, 800⟩ ⟨700, 700, 800, 1000⟩ ⟨22, 18, 32, 5⟩
      ⟨20/100, 25/100, 20/100, 3/100⟩ 100 400
  else if n = "Glaciera" then
    mkRegion ⟨900, 150, 200, 300⟩ ⟨1200, 400, 500, 400⟩ ⟨48, 5, 12, 1⟩
      ⟨15/100, 25/100, 30/100, 2/100⟩ 50 200
  else if n = "Maritosa" then
    mkRegion ⟨700, 600, 400, 350⟩ ⟨900, 800, 600, 450⟩ ⟨32, 36, 18, 2⟩
      ⟨20/100, 18/100, 15/100, 4/100⟩ 130 450
  else if n = "Montarok" then
    mkRegion ⟨400, 250, 700, 400⟩ ⟨600, 500, 900, 500⟩ ⟨18, 10, 42, 2⟩
      ⟨20/100, 22/100, 10/100, 3/100⟩ 70 250
  else if n = "Fluviana" then
    mkRegion ⟨850, 750, 350, 550⟩ ⟨1100, 900, 500, 700⟩ ⟨42, 40, 12, 4⟩
      ⟨20/100, 18/100, 12/100, 3/100⟩ 140 550
  else defaultRegion

/-- The upper-triangle name pairs of `_init_regions`
(`for i, r1: for r2 in names[i+1:]`), each mapped to score 0.5. -/
def initPairs : List String → List ((String × String) × ℚ)
  | [] => []
  | n :: rest => rest.map (fun m => (pairKey n m, 1/2)) ++ initPairs rest

/-- The world right after `World.__init__` (cycle 0, no disruption pending,
all 28 relationship scores at 0.5). -/
def initWorld : WorldState :=
  { names := initNames, regs := initRegs, cycle := 0,
    ts := { relationship := initPairs initNames, disrupted := false } }

/-! ### Q-learning agent (`worldsim_agents.QLearningAgent`) -/

/-- The discretized 6-tuple state of `Region.get_state_tuple`. -/
abbrev QState : Type := ℤ × ℤ × ℤ × ℤ × ℤ × ℤ

/-- The learning state of `QLearningAgent`. The `defaultdict` Q-table is a
total function defaulting to zero (the source's zero vector); the history
buffers do not feed back into the update rule. -/
structure QLearningAgent : Type where
  lr : ℚ
  gamma : ℚ
  epsilon : ℚ
  epsilon_end : ℚ
  epsilon_decay : ℚ
  q_table : QState → Fin 9 → ℚ
  last_state : Option (QState × Fin 9)

/-- `np.max(q_table[s])`: the maximum of the 9-entry value vector. -/
def maxQ (q : QState → Fin 9 → ℚ) (s : QState) : ℚ :=
  (List.finRange 9).foldl (fun m j => max m (q s j)) (q s 0)

/-- `QLearningAgent.update(new_state, reward)`. -/
def QLearningAgent.update (a : QLearningAgent) (new_state : QState) (reward : ℚ) :
    QLearningAgent :=
  let q' :=
    match a.last_state with
    | some (s, act) =>
      let old_q := a.q_table s act
      let max_next_q := maxQ a.q_table new_state
      let td_target := reward + a.gamma * max_next_q
      fun t j => if t = s ∧ j = act then old_q + a.lr * (td_target - old_q) else a.q_table t j
    | none => a.q_table
  { a with q_table := q', epsilon := max a.epsilon_end (a.epsilon * a.epsilon_decay) }

/-- The guard of `AgentManager.update_all`: an agent is updated exactly when
its region is alive or collapsed in this very cycle. -/
def updateGuard (w : WorldState) (name : String) : Prop :=
  (w.regs name).is_alive = true ∨ (w.regs name).collapse_cycle = w.cycle

instance (w : WorldState) (name : String) : Decidable (updateGuard w name) := by
  unfold updateGuard; infer_instance

/-! ### Frame infrastructure: mutations that only touch `resources` -/

/-- `r'` agrees with `r` on every field except possibly `resources`. -/
def EqExceptResources (r r' : Region) : Prop :=
  r' = { r with resources := r'.resources }

namespace EqExceptResources

theorem refl (r : Region) : EqExceptResources r r := rfl

theorem max_eq {r r' : Region} (h : EqExceptResources r r') :
    r'.max_resources = r.max_resources := by rw [h]

theorem population_eq {r r' : Region} (h : EqExceptResources r r') :
    r'.population = r.population := by rw [h]

theorem happiness_eq {r r' : Region} (h : EqExceptResources r r') :
    r'.happiness = r.happiness := by rw [h]

theorem tech_eq {r r' : Region} (h : EqExceptResources r r') :
    r'.tech_level = r.tech_level := by rw [h]

theorem is_alive_eq {r r' : Region} (h : EqExceptResources r r') :
    r'.is_alive = r.is_alive := by rw [h]

theorem collapse_eq {r r' : Region} (h : EqExceptResources r r') :
    r'.collapse_cycle = r.collapse_cycle := by rw [h]

end EqExceptResources

theorem eqer_trans {r r' r'' : Region} (h1 : EqExceptResources r r')
    (h2 : EqExceptResources r' r'') : EqExceptResources r r'' := by
  unfold EqExceptResources at *
  rw [h2, h1]

theorem addRes_eqer (r : Region) (res : Res) (d : ℚ) :
    EqExceptResources r (r.addRes res d) := rfl

theorem setRes_eqer (r : Region) (res : Res) (v : ℚ) :
    EqExceptResources r (r.setRes res v) := rfl

theorem clamp_eqer (r : Region) : EqExceptResources r r.clamp_resources := rfl

/-! ### Characterization of the per-region phases -/

/-- Phase-1 production amount for key `k` in terms of the pre-state. -/
def prodAmt (r : Region) (k : Res) : ℚ :=
  r.production_rates.get k * r.tech_level *
    (1/2 + 1/2 * (if k = Res.land then 1 else r.resource_ratio Res.land))

theorem prodRegion_get (r : Region) (k : Res) :
    (prodRegion r).resources.get k =
      min (r.resources.get k + prodAmt r k) (r.max_resources.get k) := by
  cases k <;> rfl

theorem prodRegion_eqer (r : Region) : EqExceptResources r (prodRegion r) := by
  cases r; rfl

theorem consRegion_get (r : Region) (k : Res) :
    (consRegion r).resources.get k =
      max 0 (r.resources.get k - r.consumption_per_pop.get k * r.population) := by
  cases k <;> rfl

theorem consRegion_eqer (r : Region) : EqExceptResources r (consRegion r) := by
  cases r; rfl

theorem prodRegion_le_max (r : Region) (k : Res) :
    (prodRegion r).resources.get k ≤ (prodRegion r).max_resources.get k := by
  rw [prodRegion_get, (prodRegion_eqer r).max_eq]
  exact min_le_right _ _

theorem prodAmt_nonneg {r : Region} (k : Res)
    (hrate : 0 ≤ r.production_rates.get k) (htech : 0 ≤ r.tech_level)
    (hland : 0 ≤ r.resources.get Res.land) : 0 ≤ prodAmt r k := by
  unfold prodAmt
  have hf : 0 ≤ (1/2 : ℚ) + 1/2 * (if k = Res.land then 1 else r.resource_ratio Res.land) := by
    rcases em (k = Res.land) with h | h
    · simp [h]
    · simp only [h, if_false]
      have := @resource_ratio_nonneg r Res.land hland
      linarith
  positivity

theorem prodRegion_bounds {r : Region} (hwf : RegionWf r) (hb : ResourceBounds r) :
    ResourceBounds (prodRegion r) := by
  intro k
  rw [prodRegion_get, (prodRegion_eqer r).max_eq]
  obtain ⟨-, htech, -, hrate, hmax⟩ := hwf
  constructor
  · exact le_min (by have := (hb k).1
                     have := prodAmt_nonneg k (hrate k) htech (hb Res.land).1
                     linarith)
      (hmax k)
  · exact min_le_right _ _

theorem consRegion_bounds {r : Region} (hcpp : ∀ k, 0 ≤ r.consumption_per_pop.get k)
    (hpop : 0 ≤ r.population) (hmax : ∀ k, 0 ≤ r.max_resources.get k)
    (hle : ∀ k, r.resources.get k ≤ r.max_resources.get k) :
    ResourceBounds (consRegion r) := by
  intro k
  rw [consRegion_get, (consRegion_eqer r).max_eq]
  refine ⟨le_max_left _ _, max_le (hmax k) ?_⟩
  have h1 : 0 ≤ r.consumption_per_pop.get k * r.population :=
    mul_nonneg (hcpp k) hpop
  have := hle k
  linarith

/-! ### Frame and bound lemmas for `_apply_action` -/

theorem applyAction_is_alive (a : Action) (r : Region) :
    (applyAction a r).is_alive = r.is_alive := by cases a <;> rfl

theorem applyAction_collapse (a : Action) (r : Region) :
    (applyAction a r).collapse_cycle = r.collapse_cycle := by cases a <;> rfl

theorem applyAction_population (a : Action) (r : Region) :
    (applyAction a r).population = r.population := by cases a <;> rfl

theorem applyAction_max_not_stockpile (a : Action) (r : Region) (h : a ≠ Action.stockpile) :
    (applyAction a r).max_resources = r.max_resources := by
  cases a <;> first | rfl | exact absurd rfl h

/-- Every action's pre-clamp `max_resources` entries: unchanged except the
`stockpile` scaling of water/food/energy by 1.004. -/
theorem applyAction_max_stockpile (r : Region) :
    (applyAction Action.stockpile r).max_resources =
      ⟨r.max_resources.water * (1004/1000), r.max_resources.food * (1004/1000),
       r.max_resources.energy * (1004/1000), r.max_resources.land⟩ := rfl

theorem applyAction_max_nonneg {a : Action} {r : Region}
    (h : ∀ k, 0 ≤ r.max_resources.get k) :
    ∀ k, 0 ≤ (applyAction a r).max_resources.get k := by
  intro k
  cases a
  case stockpile =>
    rw [applyAction_max_stockpile]
    cases k
    · have := h Res.water; simp only [ResMap.get] at this ⊢; positivity
    · have := h Res.food; simp only [ResMap.get] at this ⊢; positivity
    · have := h Res.energy; simp only [ResMap.get] at this ⊢; positivity
    · exact h Res.land
  all_goals rw [applyAction_max_not_stockpile _ _ (by simp)]; exact h k

theorem applyAction_max_ge_one {a : Action} {r : Region}
    (h : ∀ k, 1 ≤ r.max_resources.get k) :
    ∀ k, 1 ≤ (applyAction a r).max_resources.get k := by
  intro k
  cases a
  case stockpile =>
    rw [applyAction_max_stockpile]
    cases k
    · have := h Res.water; simp only [ResMap.get] at this ⊢; nlinarith
    · have := h Res.food; simp only [ResMap.get] at this ⊢; nlinarith
    · have := h Res.energy; simp only [ResMap.get] at this ⊢; nlinarith
    · exact h Res.land
  all_goals rw [applyAction_max_not_stockpile _ _ (by simp)]; exact h k

theorem applyAction_bounds {a : Action} {r : Region}
    (h : ∀ k, 0 ≤ r.max_resources.get k) :
    ResourceBounds (applyAction a r) := by
  cases a
  case stockpile =>
    refine clamp_resources_bounds ?_
    intro k
    cases k
    · have := h Res.water; simp only [ResMap.get, ResMap.set] at this ⊢; positivity
    · have := h Res.food; simp only [ResMap.get, ResMap.set] at this ⊢; positivity
    · have := h Res.energy; simp only [ResMap.get, ResMap.set] at this ⊢; positivity
    · exact h Res.land
  all_goals exact clamp_resources_bounds h

theorem applyAction_happiness_conserve (r : Region) :
    (applyAction Action.conserve r).happiness = r.happiness * (98/100) := rfl

theorem applyAction_happiness_not_conserve (a : Action) (r : Region)
    (h : a ≠ Action.conserve) : (applyAction a r).happiness = r.happiness := by
  cases a <;> first | rfl | exact absurd rfl h

theorem applyAction_happiness_mem {a : Action} {r : Region}
    (h0 : 0 ≤ r.happiness) (h1 : r.happiness ≤ 1) :
    0 ≤ (applyAction a r).happiness ∧ (applyAction a r).happiness ≤ 1 := by
  cases a
  case conserve =>
    rw [applyAction_happiness_conserve]
    constructor <;> nlinarith
  all_goals rw [applyAction_happiness_not_conserve _ _ (by simp)]; exact ⟨h0, h1⟩

/-! ### Frame and bound lemmas for `_apply_event` per target -/

theorem applyEventTarget_is_alive (t : EventType) (sev : ℚ) (r : Region) :
    (applyEventTarget t sev r).is_alive = r.is_alive := by cases t <;> rfl

theorem applyEventTarget_collapse (t : EventType) (sev : ℚ) (r : Region) :
    (applyEventTarget t sev r).collapse_cycle = r.collapse_cycle := by cases t <;> rfl

theorem applyEventTarget_max (t : EventType) (sev : ℚ) (r : Region) :
    (applyEventTarget t sev r).max_resources = r.max_resources := by cases t <;> rfl

theorem applyEventTarget_cpp (t : EventType) (sev : ℚ) (r : Region) :
    (applyEventTarget t sev r).consumption_per_pop = r.consumption_per_pop := by
  cases t <;> rfl

theorem applyEventTarget_resources (t : EventType) (sev : ℚ) (r : Region) :
    (applyEventTarget t sev r).resources = (applyEventBody t sev r).clamp_resources.resources :=
  rfl

theorem applyEventBody_max (t : EventType) (sev : ℚ) (r : Region) :
    (applyEventBody t sev r).max_resources = r.max_resources := by cases t <;> rfl

theorem applyEventTarget_bounds {t : EventType} {sev : ℚ} {r : Region}
    (h : ∀ k, 0 ≤ r.max_resources.get k) :
    ResourceBounds (applyEventTarget t sev r) := by
  intro k
  have hb := @clamp_resources_bounds (applyEventBody t sev r)
    (by rw [applyEventBody_max]; exact h) k
  rw [Region.clamp_resources_max, applyEventBody_max] at hb
  rw [applyEventTarget_max]
  exact ⟨by rw [applyEventTarget_resources]; exact hb.1,
         by rw [applyEventTarget_resources]; exact hb.2⟩

theorem applyEventBody_happiness_plague (sev : ℚ) (r : Region) :
    (applyEventBody EventType.plague sev r).happiness =
      r.happiness * (1 - 15/100 * sev) := rfl

theorem applyEventTarget_happiness (t : EventType) (sev : ℚ) (r : Region) :
    (applyEventTarget t sev r).happiness = (applyEventBody t sev r).happiness := by
  cases t <;> rfl

theorem applyEventTarget_happiness_mem {t : EventType} {sev : ℚ} {r : Region}
    (hs0 : 0 ≤ sev) (hs1 : sev ≤ 1) (h0 : 0 ≤ r.happiness) (h1 : r.happiness ≤ 1) :
    0 ≤ (applyEventTarget t sev r).happiness ∧ (applyEventTarget t sev r).happiness ≤ 1 := by
  rw [applyEventTarget_happiness]
  cases t
  case plague =>
    rw [applyEventBody_happiness_plague]
    constructor <;> nlinarith
  case bumper_harvest =>
    show 0 ≤ min 1 (r.happiness + 5/100 * sev) ∧ min 1 (r.happiness + 5/100 * sev) ≤ 1
    constructor
    · refine le_min (by norm_num) (by nlinarith)
    · exact min_le_left _ _
  case technological_leap =>
    show 0 ≤ min 1 (r.happiness + 5/100) ∧ min 1 (r.happiness + 5/100) ≤ 1
    constructor
    · refine le_min (by norm_num) (by linarith)
    · exact min_le_left _ _
  all_goals exact ⟨h0, h1⟩

/-! ### Relationship-score range invariant (spec §8 "Relationship bound") -/

/-- Every stored relationship score lies within `[0.1, 1.0]`. -/
def RelInRange (ts : TradeState) : Prop :=
  ∀ p ∈ ts.relationship, 1/10 ≤ p.2 ∧ p.2 ≤ 1

theorem lookupRel_mem {l : List ((String × String) × ℚ)} {key : String × String} {v : ℚ}
    (h : lookupRel l key = some v) : (key, v) ∈ l := by
  induction l with
  | nil => simp [lookupRel] at h
  | cons hd rest ih =>
    obtain ⟨k, w⟩ := hd
    simp only [lookupRel] at h
    split at h
    · next heq =>
      subst heq
      injection h with h
      subst h
      exact List.mem_cons_self _ _
    · exact List.mem_cons_of_mem _ (ih h)

theorem mem_setRelK {l : List ((String × String) × ℚ)} {key : String × String} {v : ℚ}
    {p : (String × String) × ℚ} (h : p ∈ setRelK l key v) : p = (key, v) ∨ p ∈ l := by
  unfold setRelK at h
  split at h
  · obtain ⟨q, hq, hpq⟩ := List.mem_map.mp h
    by_cases hqk : q.1 = key
    · rw [if_pos hqk] at hpq; exact Or.inl hpq.symm
    · rw [if_neg hqk] at hpq; exact Or.inr (hpq ▸ hq)
  · rcases List.mem_append.mp h with h | h
    · exact Or.inr h
    · simp only [List.mem_singleton] at h; exact Or.inl h

theorem decay_relInRange {ts : TradeState} (h : RelInRange ts) :
    RelInRange ts.decay_relationships := by
  intro p hp
  simp only [TradeState.decay_relationships, List.mem_map] at hp
  obtain ⟨q, hq, hpq⟩ := hp
  have := h q hq
  constructor
  · rw [← hpq]; exact le_max_left _ _
  · rw [← hpq]
    exact max_le (by norm_num) (by linarith [this.2])

theorem disrupt_relInRange {ts : TradeState} {sev : ℚ} (hs : 0 ≤ sev)
    (h : RelInRange ts) : RelInRange (ts.disrupt sev) := by
  intro p hp
  simp only [TradeState.disrupt, List.mem_map] at hp
  obtain ⟨q, hq, hpq⟩ := hp
  have hm := h q hq
  constructor
  · rw [← hpq]; exact le_max_left _ _
  · rw [← hpq]
    refine max_le (by norm_num) ?_
    have hs' : 0 ≤ 1/20 * sev := by positivity
    linarith [hm.2]

theorem update_rel_bump_relInRange {ts : TradeState} {r1 r2 : String}
    (h : RelInRange ts) : RelInRange (ts.update_rel r1 r2 (1/25)) := by
  intro p hp
  simp only [TradeState.update_rel] at hp
  rcases mem_setRelK hp with hp | hp
  · subst hp
    rcases hv : lookupRel ts.relationship (pairKey r1 r2) with _ | v
    · simp only [Option.getD_none, clip]
      norm_num
    · have hm := h _ (lookupRel_mem hv)
      simp only [Option.getD_some, clip]
      constructor
      · have h14 : (1:ℚ)/10 ≤ v + 1/25 := by linarith [hm.1]
        have h15 : (1:ℚ)/10 ≤ max (v + 1/25) 0 := le_trans h14 (le_max_left _ _)
        exact le_min h15 (by norm_num)
      · exact min_le_right _ _
  · exact h p hp

/-! ### The matching loop: invariants of `scanSellers` -/

theorem scanSellers_spec (rand : ℕ → ℚ) (cycle : ℤ) (resource : Res) (buyer : String)
    (need : ℚ) (offerRes : Res) :
    ∀ (lst : List (String × ℚ)) (regs : String → Region) (ts : TradeState) (ctr : ℕ),
      (∀ n, EqExceptResources (regs n)
        ((scanSellers rand cycle resource buyer need offerRes lst regs ts ctr).2.1 n)) ∧
      ((regs buyer).is_alive = true →
        ∀ n, (regs n).is_alive = false →
          (scanSellers rand cycle resource buyer need offerRes lst regs ts ctr).2.1 n = regs n) ∧
      (∀ n, ResourceBounds (regs n) →
        ResourceBounds ((scanSellers rand cycle resource buyer need offerRes lst regs ts ctr).2.1 n)) ∧
      (RelInRange ts →
        RelInRange (scanSellers rand cycle resource buyer need offerRes lst regs ts ctr).2.2.1) ∧
      (∀ tr ∈ ((scanSellers rand cycle resource buyer need offerRes lst regs ts ctr).2.2.2.1).toList,
        tr.buyer = buyer ∧ tr.resource_bought = resource) := by
  intro lst
  induction lst with
  | nil =>
    intro regs ts ctr
    refine ⟨fun n => EqExceptResources.refl _, fun _ n _ => rfl, fun n h => h, fun h => h, ?_⟩
    intro tr htr
    simp [scanSellers] at htr
  | cons hd rest ih =>
    intro regs ts ctr
    obtain ⟨seller, available⟩ := hd
    by_cases h1 : seller = buyer ∨ available < 3 ∨ (regs seller).is_alive = false
    · have heq : scanSellers rand cycle resource buyer need offerRes
          ((seller, available) :: rest) regs ts ctr =
          ((seller, available) :: (scanSellers rand cycle resource buyer need offerRes rest regs ts ctr).1,
           (scanSellers rand cycle resource buyer need offerRes rest regs ts ctr).2) := by
        simp only [scanSellers, if_pos h1]
      rw [heq]
      exact ih regs ts ctr
    · by_cases h2 : rand ctr > 3/10 + 7/10 * ts.get_rel buyer seller
      · have heq : scanSellers rand cycle resource buyer need offerRes
            ((seller, available) :: rest) regs ts ctr =
            ((seller, available) :: (scanSellers rand cycle resource buyer need offerRes rest regs ts (ctr+1)).1,
             (scanSellers rand cycle resource buyer need offerRes rest regs ts (ctr+1)).2) := by
          simp only [scanSellers, if_neg h1, if_pos h2]
        rw [heq]
        exact ih regs ts (ctr+1)
      · by_cases h3 : (regs seller).resource_ratio offerRes > 17/20
        · have heq : scanSellers rand cycle resource buyer need offerRes
              ((seller, available) :: rest) regs ts ctr =
              ((seller, available) :: (scanSellers rand cycle resource buyer need offerRes rest regs ts (ctr+1)).1,
               (scanSellers rand cycle resource buyer need offerRes rest regs ts (ctr+1)).2) := by
            simp only [scanSellers, if_neg h1, if_neg h2, if_pos h3]
          rw [heq]
          exact ih regs ts (ctr+1)
        · -- the execute branch
          have hsb : seller ≠ buyer := fun h => h1 (Or.inl h)
          have hsalive : (regs seller).is_alive = true := by
            rcases Bool.eq_false_or_eq_true (regs seller).is_alive with h | h
            · exact h
            · exact absurd (Or.inr (Or.inr h)) h1
          set rel := ts.get_rel buyer seller with hrel
          set trade_amt := min need (min available 60) with hta
          set exchange_amt := trade_amt * (4/5 + 1/5 * rel) with hea
          set buyerR := ((regs buyer).addRes resource trade_amt).addRes offerRes (-exchange_amt) with hbR
          set sellerR := ((regs seller).addRes resource (-trade_amt)).addRes offerRes exchange_amt with hsR
          have heq : scanSellers rand cycle resource buyer need offerRes
              ((seller, available) :: rest) regs ts ctr =
              ((seller, available - trade_amt) :: rest,
               updF (updF (updF (updF regs buyer buyerR) seller sellerR)
                   buyer ((updF (updF regs buyer buyerR) seller sellerR) buyer).clamp_resources)
                 seller ((updF (updF (updF regs buyer buyerR) seller sellerR)
                   buyer ((updF (updF regs buyer buyerR) seller sellerR) buyer).clamp_resources) seller).clamp_resources,
               ts.update_rel buyer seller (1/25),
               some { cycle := cycle, buyer := buyer, seller := seller,
                      resource_bought := resource, amount := trade_amt,
                      resource_sold := offerRes, exchange_amount := exchange_amt },
               ctr + 1) := by
            simp only [scanSellers, if_neg h1, if_neg h2, if_neg h3]
          have hR : (scanSellers rand cycle resource buyer need offerRes
              ((seller, available) :: rest) regs ts ctr).2.1 =
              updF (updF (updF (updF regs buyer buyerR) seller sellerR)
                  buyer ((updF (updF regs buyer buyerR) seller sellerR) buyer).clamp_resources)
                seller ((updF (updF (updF regs buyer buyerR) seller sellerR)
                  buyer ((updF (updF regs buyer buyerR) seller sellerR) buyer).clamp_resources) seller).clamp_resources := by
            rw [heq]
          have hT : (scanSellers rand cycle resource buyer need offerRes
              ((seller, available) :: rest) regs ts ctr).2.2.1 =
              ts.update_rel buyer seller (1/25) := by
            rw [heq]
          have hTr : (scanSellers rand cycle resource buyer need offerRes
              ((seller, available) :: rest) regs ts ctr).2.2.2.1 =
              some { cycle := cycle, buyer := buyer, seller := seller,
                     resource_bought := resource, amount := trade_amt,
                     resource_sold := offerRes, exchange_amount := exchange_amt } := by
            rw [heq]
          have hregs2_buyer :
              (updF (updF regs buyer buyerR) seller sellerR) buyer = buyerR := by
            rw [updF_ne _ _ _ _ hsb.symm, updF_self]
          have hfinal : ∀ n,
              (updF (updF (updF (updF regs buyer buyerR) seller sellerR)
                  buyer ((updF (updF regs buyer buyerR) seller sellerR) buyer).clamp_resources)
                seller ((updF (updF (updF regs buyer buyerR) seller sellerR)
                  buyer ((updF (updF regs buyer buyerR) seller sellerR) buyer).clamp_resources) seller).clamp_resources) n =
              if n = seller then sellerR.clamp_resources
              else if n = buyer then buyerR.clamp_resources
              else regs n := by
            intro n
            by_cases hns : n = seller
            · subst hns
              rw [if_pos rfl, updF_self]
              rw [updF_ne _ _ _ _ hsb, updF_self]
            · rw [if_neg hns, updF_ne _ _ _ _ hns]
              by_cases hnb : n = buyer
              · subst hnb
                rw [if_pos rfl, updF_self, hregs2_buyer]
              · rw [if_neg hnb, updF_ne _ _ _ _ hnb, updF_ne _ _ _ _ hns,
                  updF_ne _ _ _ _ hnb]
          refine ⟨?_, ?_, ?_, ?_, ?_⟩
          · intro n
            rw [hR, hfinal n]
            by_cases hns : n = seller
            · subst hns
              rw [if_pos rfl]
              exact eqer_trans (eqer_trans (addRes_eqer _ _ _) (addRes_eqer _ _ _))
                (clamp_eqer _)
            · rw [if_neg hns]
              by_cases hnb : n = buyer
              · subst hnb
                rw [if_pos rfl]
                exact eqer_trans (eqer_trans (addRes_eqer _ _ _) (addRes_eqer _ _ _))
                  (clamp_eqer _)
              · rw [if_neg hnb]
                exact EqExceptResources.refl _
          · intro hbuyer n hdead
            rw [hR, hfinal n]
            have hns : n ≠ seller := fun h => by rw [h, hsalive] at hdead; cases hdead
            have hnb : n ≠ buyer := fun h => by rw [h, hbuyer] at hdead; cases hdead
            rw [if_neg hns, if_neg hnb]
          · intro n hb
            rw [hR, hfinal n]
            by_cases hns : n = seller
            · subst hns
              rw [if_pos rfl]
              refine clamp_resources_bounds ?_
              intro k
              exact le_trans (hb k).1 (hb k).2
            · rw [if_neg hns]
              by_cases hnb : n = buyer
              · subst hnb
                rw [if_pos rfl]
                refine clamp_resources_bounds ?_
                intro k
                exact le_trans (hb k).1 (hb k).2
              · rw [if_neg hnb]
                exact hb
          · intro h
            rw [hT]
            exact update_rel_bump_relInRange h
          · intro tr htr
            rw [hTr] at htr
            simp only [Option.toList_some, List.mem_singleton] at htr
            subst htr
            exact ⟨rfl, rfl⟩

/-- Number of executed trades in which `b` bought resource `ρ`. -/
def countB (trades : List TradeRec) (b : String) (ρ : Res) : ℕ :=
  (trades.filter (fun t => decide (t.buyer = b ∧ t.resource_bought = ρ))).length

/-- Number of pool-bucket entries carrying name `b`. -/
def countN {α : Type} (blist : List (String × α)) (b : String) : ℕ :=
  (blist.filter (fun e => decide (e.1 = b))).length

theorem countB_append (l₁ l₂ : List TradeRec) (b : String) (ρ : Res) :
    countB (l₁ ++ l₂) b ρ = countB l₁ b ρ + countB l₂ b ρ := by
  simp [countB, List.filter_append]

theorem countB_nil (b : String) (ρ : Res) : countB [] b ρ = 0 := rfl

theorem countN_cons (e : String × ℚ × Res) (rest : List (String × ℚ × Res)) (b : String) :
    countN (e :: rest) b = (if e.1 = b then 1 else 0) + countN rest b := by
  by_cases h : e.1 = b <;> simp [countN, List.filter_cons, h, Nat.add_comm]

theorem processBuyers_spec (rand : ℕ → ℚ) (cycle : ℤ) (resource : Res) :
    ∀ (blist : List (String × ℚ × Res)) (slist : List (String × ℚ))
      (regs : String → Region) (ts : TradeState) (trades : List TradeRec) (ctr : ℕ),
      (∀ n, EqExceptResources (regs n)
        ((processBuyers rand cycle resource blist slist regs ts trades ctr).2.1 n)) ∧
      ((∀ e ∈ blist, (regs e.1).is_alive = true) →
        ∀ n, (regs n).is_alive = false →
          (processBuyers rand cycle resource blist slist regs ts trades ctr).2.1 n = regs n) ∧
      (∀ n, ResourceBounds (regs n) →
        ResourceBounds ((processBuyers rand cycle resource blist slist regs ts trades ctr).2.1 n)) ∧
      (RelInRange ts →
        RelInRange (processBuyers rand cycle resource blist slist regs ts trades ctr).2.2.1) ∧
      (∀ b, countB (processBuyers rand cycle resource blist slist regs ts trades ctr).2.2.2.1 b resource ≤
        countB trades b resource + countN blist b) ∧
      (∀ b ρ, ρ ≠ resource →
        countB (processBuyers rand cycle resource blist slist regs ts trades ctr).2.2.2.1 b ρ =
          countB trades b ρ) := by
  intro blist
  induction blist with
  | nil =>
    intro slist regs ts trades ctr
    exact ⟨fun n => EqExceptResources.refl _, fun _ n _ => rfl, fun n h => h, fun h => h,
      fun b => Nat.le_add_right _ _, fun b ρ _ => rfl⟩
  | cons hd rest ih =>
    intro slist regs ts trades ctr
    obtain ⟨buyer, need, offerRes⟩ := hd
    have hscan := scanSellers_spec rand cycle resource buyer need offerRes slist regs ts ctr
    set out := scanSellers rand cycle resource buyer need offerRes slist regs ts ctr with hout
    have hstep : processBuyers rand cycle resource
        ((buyer, need, offerRes) :: rest) slist regs ts trades ctr =
        processBuyers rand cycle resource rest out.1 out.2.1 out.2.2.1
          (trades ++ out.2.2.2.1.toList) out.2.2.2.2 := rfl
    rw [hstep]
    have hih := ih out.1 out.2.1 out.2.2.1 (trades ++ out.2.2.2.1.toList) out.2.2.2.2
    obtain ⟨ha, hb, hc, hd, he, hf⟩ := hih
    obtain ⟨sa, sb, sc, sd, se⟩ := hscan
    have hcount_to : ∀ b, countB out.2.2.2.1.toList b resource ≤ if buyer = b then 1 else 0 := by
      intro b
      rcases hopt : out.2.2.2.1 with _ | tr
      · simp [countB]
      · have := se tr (by rw [hopt]; exact List.mem_singleton.mpr rfl)
        simp only [Option.toList_some]
        by_cases hbb : buyer = b
        · rw [if_pos hbb]
          simp [countB, List.filter]
          split <;> simp
        · rw [if_neg hbb]
          have : ¬ (tr.buyer = b ∧ tr.resource_bought = resource) := by
            intro hcontra
            exact hbb (this.1 ▸ hcontra.1)
          simp [countB, List.filter, this]
    have hcount_ne : ∀ b ρ, ρ ≠ resource → countB out.2.2.2.1.toList b ρ = 0 := by
      intro b ρ hne
      rcases hopt : out.2.2.2.1 with _ | tr
      · simp [countB]
      · have := se tr (by rw [hopt]; exact List.mem_singleton.mpr rfl)
        have : ¬ (tr.buyer = b ∧ tr.resource_bought = ρ) := by
          intro hcontra
          exact hne (hcontra.2 ▸ this.2.symm).symm
        simp only [Option.toList_some]
        simp [countB, List.filter, this]
    refine ⟨?_, ?_, ?_, ?_, ?_, ?_⟩
    · intro n
      exact eqer_trans (sa n) (ha n)
    · intro halive n hdead
      have hbuyer : (regs buyer).is_alive = true :=
        halive (buyer, need, offerRes) (List.mem_cons_self _ _)
      have h1 : out.2.1 n = regs n := sb hbuyer n hdead
      have h2 : ∀ e ∈ rest, (out.2.1 e.1).is_alive = true := by
        intro e he
        rw [(sa e.1).is_alive_eq]
        exact halive e (List.mem_cons_of_mem _ he)
      have h3 : (out.2.1 n).is_alive = false := by
        rw [(sa n).is_alive_eq]; exact hdead
      rw [hb h2 n h3, h1]
    · intro n hbnd
      exact hc n (sc n hbnd)
    · intro hrange
      exact hd (sd hrange)
    · intro b
      calc countB (processBuyers rand cycle resource rest out.1 out.2.1 out.2.2.1
              (trades ++ out.2.2.2.1.toList) out.2.2.2.2).2.2.2.1 b resource
          ≤ countB (trades ++ out.2.2.2.1.toList) b resource + countN rest b := he b
        _ = countB trades b resource + countB out.2.2.2.1.toList b resource + countN rest b := by
            rw [countB_append]
        _ ≤ countB trades b resource + (if buyer = b then 1 else 0) + countN rest b := by
            have := hcount_to b; omega
        _ = countB trades b resource + countN ((buyer, need, offerRes) :: rest) b := by
            have hcn : countN ((buyer, need, offerRes) :: rest) b =
                (if buyer = b then 1 else 0) + countN rest b := by rw [countN_cons]
            rw [hcn]
            omega
    · intro b ρ hne
      rw [hf b ρ hne, countB_append, hcount_ne b ρ hne]
      omega

/-- Number of buckets of the pool keyed by `ρ`. -/
def countKey {α : Type} (pool : List (Res × α)) (ρ : Res) : ℕ :=
  (pool.filter (fun pr => decide (pr.1 = ρ))).length

theorem countKey_cons {α : Type} (hd : Res × α) (rest : List (Res × α)) (ρ : Res) :
    countKey (hd :: rest) ρ = (if hd.1 = ρ then 1 else 0) + countKey rest ρ := by
  by_cases h : hd.1 = ρ <;> simp [countKey, List.filter_cons, h, Nat.add_comm]

theorem processAll_spec (rand : ℕ → ℚ) (cycle : ℤ) :
    ∀ (buyers : List (Res × List (String × ℚ × Res))) (sellers : List (Res × List (String × ℚ)))
      (regs : String → Region) (ts : TradeState) (trades : List TradeRec) (ctr : ℕ),
      (∀ n, EqExceptResources (regs n)
        ((processAll rand cycle buyers sellers regs ts trades ctr).1 n)) ∧
      ((∀ pr ∈ buyers, ∀ e ∈ pr.2, (regs e.1).is_alive = true) →
        ∀ n, (regs n).is_alive = false →
          (processAll rand cycle buyers sellers regs ts trades ctr).1 n = regs n) ∧
      (∀ n, ResourceBounds (regs n) →
        ResourceBounds ((processAll rand cycle buyers sellers regs ts trades ctr).1 n)) ∧
      (RelInRange ts →
        RelInRange (processAll rand cycle buyers sellers regs ts trades ctr).2.1) ∧
      ((∀ pr ∈ buyers, ∀ b, countN pr.2 b ≤ 1) →
        ∀ b ρ, countB (processAll rand cycle buyers sellers regs ts trades ctr).2.2.1 b ρ ≤
          countB trades b ρ + countKey buyers ρ) := by
  intro buyers
  induction buyers with
  | nil =>
    intro sellers regs ts trades ctr
    exact ⟨fun n => EqExceptResources.refl _, fun _ n _ => rfl, fun n h => h, fun h => h,
      fun _ b ρ => Nat.le_add_right _ _⟩
  | cons hd rest ih =>
    intro sellers regs ts trades ctr
    obtain ⟨ρ₀, bl₀⟩ := hd
    rcases hl : lookupPool sellers ρ₀ with _ | slist
    · have hstep : processAll rand cycle ((ρ₀, bl₀) :: rest) sellers regs ts trades ctr =
          processAll rand cycle rest sellers regs ts trades ctr := by
        simp only [processAll, hl]
      rw [hstep]
      obtain ⟨ha, hb, hc, hd, he⟩ := ih sellers regs ts trades ctr
      refine ⟨ha, ?_, hc, hd, ?_⟩
      · intro halive n hdead
        exact hb (fun pr hpr e he' => halive pr (List.mem_cons_of_mem _ hpr) e he') n hdead
      · intro hbound b ρ
        have := he (fun pr hpr => hbound pr (List.mem_cons_of_mem _ hpr)) b ρ
        rw [countKey_cons]
        omega
    · obtain ⟨pa, pb, pc, pd, pe, pf⟩ := processBuyers_spec rand cycle ρ₀ bl₀ slist regs ts trades ctr
      set out := processBuyers rand cycle ρ₀ bl₀ slist regs ts trades ctr with hout
      have hstep : processAll rand cycle ((ρ₀, bl₀) :: rest) sellers regs ts trades ctr =
          processAll rand cycle rest (setPool sellers ρ₀ out.1)
            out.2.1 out.2.2.1 out.2.2.2.1 out.2.2.2.2 := by
        simp only [processAll, hl]
      rw [hstep]
      obtain ⟨ha, hb, hc, hd, he⟩ :=
        ih (setPool sellers ρ₀ out.1) out.2.1 out.2.2.1 out.2.2.2.1 out.2.2.2.2
      refine ⟨?_, ?_, ?_, ?_, ?_⟩
      · intro n
        exact eqer_trans (pa n) (ha n)
      · intro halive n hdead
        have hbl : ∀ e ∈ bl₀, (regs e.1).is_alive = true :=
          fun e he' => halive (ρ₀, bl₀) (List.mem_cons_self _ _) e he'
        have h1 : out.2.1 n = regs n := pb hbl n hdead
        have h2 : ∀ pr ∈ rest, ∀ e ∈ pr.2, (out.2.1 e.1).is_alive = true := by
          intro pr hpr e he'
          rw [(pa e.1).is_alive_eq]
          exact halive pr (List.mem_cons_of_mem _ hpr) e he'
        have h3 : (out.2.1 n).is_alive = false := by
          rw [(pa n).is_alive_eq]; exact hdead
        rw [hb h2 n h3, h1]
      · intro n hbnd
        exact hc n (pc n hbnd)
      · intro hrange
        exact hd (pd hrange)
      · intro hbound b ρ
        have hrest := he (fun pr hpr => hbound pr (List.mem_cons_of_mem _ hpr)) b ρ
        rw [countKey_cons]
        by_cases hρ : ρ₀ = ρ
        · subst hρ
          have h1 : countB out.2.2.2.1 b ρ₀ ≤ countB trades b ρ₀ + countN bl₀ b := pe b
          have h2 : countN bl₀ b ≤ 1 := hbound (ρ₀, bl₀) (List.mem_cons_self _ _) b
          simp only [eq_self_iff_true, if_true]
          omega
        · have h1 : countB out.2.2.2.1 b ρ = countB trades b ρ :=
            pf b ρ (fun h => hρ h.symm)
          rw [if_neg hρ]
          omega

/-! ### Structure of `setdefault`-built pools -/

/-- The bucket content at key `ρ` (empty when the key is absent). -/
def bucketAt {α : Type} (pool : List (Res × List α)) (ρ : Res) : List α :=
  (lookupPool pool ρ).getD []

def poolKeys {α : Type} (pool : List (Res × α)) : List Res := pool.map Prod.fst

theorem bucketAt_addToPool_self {α : Type} :
    ∀ (pool : List (Res × List α)) (res : Res) (x : α),
      bucketAt (addToPool pool res x) res = bucketAt pool res ++ [x] := by
  intro pool res x
  induction pool with
  | nil => simp [bucketAt, addToPool, lookupPool]
  | cons hd rest ih =>
    obtain ⟨r, xs⟩ := hd
    by_cases hr : r = res
    · subst hr
      simp [bucketAt, addToPool, lookupPool]
    · simp only [addToPool, if_neg hr, bucketAt, lookupPool]
      exact ih

theorem bucketAt_addToPool_ne {α : Type} :
    ∀ (pool : List (Res × List α)) (res ρ : Res) (x : α), ρ ≠ res →
      bucketAt (addToPool pool res x) ρ = bucketAt pool ρ := by
  intro pool res ρ x hne
  induction pool with
  | nil =>
    simp only [bucketAt, addToPool, lookupPool]
    rw [if_neg (fun h => hne h.symm)]
  | cons hd rest ih =>
    obtain ⟨r, xs⟩ := hd
    by_cases hr : r = res
    · subst hr
      simp only [addToPool, if_pos rfl, bucketAt, lookupPool]
      rw [if_neg (fun h => hne h.symm), if_neg (fun h => hne h.symm)]
    · simp only [addToPool, if_neg hr, bucketAt, lookupPool]
      by_cases hrρ : r = ρ
      · rw [if_pos hrρ, if_pos hrρ]
      · rw [if_neg hrρ, if_neg hrρ]
        exact ih

theorem poolKeys_addToPool {α : Type} :
    ∀ (pool : List (Res × List α)) (res : Res) (x : α),
      poolKeys (addToPool pool res x) = poolKeys pool ∨
      (poolKeys (addToPool pool res x) = poolKeys pool ++ [res] ∧ res ∉ poolKeys pool) := by
  intro pool res x
  induction pool with
  | nil =>
    right
    constructor
    · rfl
    · simp [poolKeys]
  | cons hd rest ih =>
    obtain ⟨r, xs⟩ := hd
    by_cases hr : r = res
    · left
      simp [addToPool, if_pos hr, poolKeys]
    · have hstep : poolKeys (addToPool ((r, xs) :: rest) res x) =
          r :: poolKeys (addToPool rest res x) := by
        simp [addToPool, if_neg hr, poolKeys]
      rcases ih with ih | ⟨ih1, ih2⟩
      · left
        rw [hstep, ih]
        rfl
      · right
        constructor
        · rw [hstep, ih1]
          rfl
        · intro hmem
          rcases List.mem_cons.mp hmem with hmem | hmem
          · exact hr hmem.symm
          · exact ih2 hmem

theorem poolKeys_nodup_addToPool {α : Type} {pool : List (Res × List α)}
    (h : (poolKeys pool).Nodup) (res : Res) (x : α) :
    (poolKeys (addToPool pool res x)).Nodup := by
  rcases poolKeys_addToPool pool res x with heq | ⟨heq, hnot⟩
  · rw [heq]; exact h
  · rw [heq]
    rw [List.nodup_append]
    exact ⟨h, List.nodup_singleton _, by simpa using hnot⟩

theorem lookupPool_of_mem_nodup {α : Type} :
    ∀ {pool : List (Res × List α)}, (poolKeys pool).Nodup →
      ∀ {pr}, pr ∈ pool → lookupPool pool pr.1 = some pr.2 := by
  intro pool
  induction pool with
  | nil => intro _ pr hpr; simp at hpr
  | cons hd rest ih =>
    intro hnodup pr hpr
    obtain ⟨hh, hrest⟩ := List.nodup_cons.mp hnodup
    rcases List.mem_cons.mp hpr with hpr2 | hpr2
    · subst hpr2
      simp [lookupPool]
    · have hne : hd.1 ≠ pr.1 := by
        intro h
        exact hh (h ▸ List.mem_map_of_mem Prod.fst hpr2)
      obtain ⟨r, xs⟩ := hd
      simp only [lookupPool]
      rw [if_neg hne]
      exact ih hrest hpr2

theorem bucketAt_of_mem_nodup {α : Type} {pool : List (Res × List α)}
    (h : (poolKeys pool).Nodup) {pr : Res × List α} (hpr : pr ∈ pool) :
    bucketAt pool pr.1 = pr.2 := by
  unfold bucketAt
  rw [lookupPool_of_mem_nodup h hpr]
  rfl

/-- Generic `foldl` invariant preservation. -/
theorem foldl_inv {α β : Type} (P : β → Prop) (f : β → α → β) :
    ∀ (l : List α) (b : β), P b → (∀ x b', x ∈ l → P b' → P (f b' x)) → P (l.foldl f b) := by
  intro l
  induction l with
  | nil => intro b hb _; exact hb
  | cons hd rest ih =>
    intro b hb hstep
    exact ih (f b hd) (hstep hd b (List.mem_cons_self _ _) hb)
      (fun x b' hx => hstep x b' (List.mem_cons_of_mem _ hx))

theorem addToPool_entries {α : Type} (P : α → Prop) :
    ∀ (pool : List (Res × List α)) (res : Res) (x : α),
      (∀ pr ∈ pool, ∀ e ∈ pr.2, P e) → P x →
      ∀ pr ∈ addToPool pool res x, ∀ e ∈ pr.2, P e := by
  intro pool
  induction pool with
  | nil =>
    intro res x _ hx pr hpr e he
    simp only [addToPool, List.mem_singleton] at hpr
    subst hpr
    simp only [List.mem_singleton] at he
    subst he
    exact hx
  | cons hd rest ih =>
    intro res x hall hx pr hpr e he
    obtain ⟨r, xs⟩ := hd
    by_cases hr : r = res
    · rw [addToPool, if_pos hr] at hpr
      rcases List.mem_cons.mp hpr with hpr | hpr
      · subst hpr
        rcases List.mem_append.mp he with he | he
        · exact hall (r, xs) (List.mem_cons_self _ _) e he
        · simp only [List.mem_singleton] at he
          subst he; exact hx
      · exact hall pr (List.mem_cons_of_mem _ hpr) e he
    · rw [addToPool, if_neg hr] at hpr
      rcases List.mem_cons.mp hpr with hpr | hpr
      · subst hpr
        exact hall (r, xs) (List.mem_cons_self _ _) e he
      · exact ih res x (fun q hq => hall q (List.mem_cons_of_mem _ hq)) hx pr hpr e he

/-- A fold over a duplicate-free key list, adding per key at most one entry
named `name` to that key's bucket, raises each bucket's per-name count by at
most one, and only for `name`. -/
theorem foldl_addOnce_bucket {α : Type} (name : String)
    (step : List (Res × List (String × α)) → Res → List (Res × List (String × α)))
    (hstep : ∀ pool res, step pool res = pool ∨
      ∃ v, step pool res = addToPool pool res (name, v)) :
    ∀ (ds : List Res), ds.Nodup →
      ∀ (pool : List (Res × List (String × α))) (ρ : Res) (b : String),
        countN (bucketAt (ds.foldl step pool) ρ) b ≤
          countN (bucketAt pool ρ) b + (if ρ ∈ ds ∧ b = name then 1 else 0) := by
  intro ds
  induction ds with
  | nil =>
    intro _ pool ρ b
    simp
  | cons d rest ih =>
    intro hnodup pool ρ b
    obtain ⟨hd_not, hrest⟩ := List.nodup_cons.mp hnodup
    have hfold : (d :: rest).foldl step pool = rest.foldl step (step pool d) := rfl
    rw [hfold]
    rcases hstep pool d with hs | ⟨v, hs⟩
    · rw [hs]
      have := ih hrest pool ρ b
      refine le_trans this ?_
      have hmono : (if ρ ∈ rest ∧ b = name then (1:ℕ) else 0) ≤
          (if ρ ∈ d :: rest ∧ b = name then 1 else 0) := by
        by_cases h : ρ ∈ rest ∧ b = name
        · rw [if_pos h, if_pos ⟨List.mem_cons_of_mem _ h.1, h.2⟩]
        · rw [if_neg h]; omega
      omega
    · rw [hs]
      by_cases hρd : ρ = d
      · subst hρd
        have hb1 : bucketAt (addToPool pool ρ (name, v)) ρ = bucketAt pool ρ ++ [(name, v)] :=
          bucketAt_addToPool_self pool ρ (name, v)
        have hcount : countN (bucketAt (addToPool pool ρ (name, v)) ρ) b =
            countN (bucketAt pool ρ) b + (if b = name then 1 else 0) := by
          rw [hb1]
          simp only [countN, List.filter_append, List.length_append]
          congr 1
          by_cases hbn : name = b
          · subst hbn
            rw [if_pos rfl]
            simp [List.filter]
          · rw [if_neg (fun h => hbn h.symm)]
            simp [List.filter, hbn]
        have hnot_rest : ¬ (ρ ∈ rest ∧ b = name) ∨ True := Or.inr trivial
        have := ih hrest (addToPool pool ρ (name, v)) ρ b
        have hrest0 : (if ρ ∈ rest ∧ b = name then (1:ℕ) else 0) = 0 := by
          rw [if_neg (fun h => hd_not h.1)]
        rw [hrest0] at this
        rw [hcount] at this
        have hfinal : (if ρ ∈ ρ :: rest ∧ b = name then (1:ℕ) else 0) =
            (if b = name then 1 else 0) := by
          by_cases hbn : b = name
          · rw [if_pos ⟨List.mem_cons_self _ _, hbn⟩, if_pos hbn]
          · rw [if_neg (fun h => hbn h.2), if_neg hbn]
        rw [hfinal]
        omega
      · have hb1 : bucketAt (addToPool pool d (name, v)) ρ = bucketAt pool ρ :=
          bucketAt_addToPool_ne pool d ρ (name, v) hρd
        have := ih hrest (addToPool pool d (name, v)) ρ b
        rw [hb1] at this
        refine le_trans this ?_
        have hmono : (if ρ ∈ rest ∧ b = name then (1:ℕ) else 0) ≤
            (if ρ ∈ d :: rest ∧ b = name then 1 else 0) := by
          by_cases h : ρ ∈ rest ∧ b = name
          · rw [if_pos h, if_pos ⟨List.mem_cons_of_mem _ h.1, h.2⟩]
          · rw [if_neg h]; omega
        omega

/-! ### Properties of the built pools -/

theorem RESOURCE_KEYS_nodup : RESOURCE_KEYS.Nodup := by decide

theorem buyerDeficitFold_shape (region : Region) (name : String) (surplus_res : List Res) :
    ∀ (pool : List (Res × List (String × ℚ × Res))) (res : Res),
      buyerDeficitFold region name surplus_res pool res = pool ∨
      ∃ v, buyerDeficitFold region name surplus_res pool res = addToPool pool res (name, v) := by
  intro pool res
  unfold buyerDeficitFold
  by_cases h : region.max_resources.get res * (7/20) - region.resources.get res > 5
  · rw [if_pos h]
    rcases hh : (surplus_res.filter (fun o => o ≠ res)).head? with _ | offer
    · exact Or.inl rfl
    · exact Or.inr ⟨(region.max_resources.get res * (7/20) - region.resources.get res, offer), rfl⟩
  · rw [if_neg h]
    exact Or.inl rfl

theorem buildBuyers_alive (decisions : List (String × Action)) (regs : String → Region) :
    ∀ pr ∈ buildBuyers decisions regs, ∀ e ∈ pr.2, (regs e.1).is_alive = true := by
  unfold buildBuyers
  refine foldl_inv
    (fun pool => ∀ pr ∈ pool, ∀ e ∈ pr.2, (regs e.1).is_alive = true)
    (buyerFold regs) decisions []
    (fun pr hpr => absurd hpr (List.not_mem_nil pr)) ?_
  intro p pool _ hpool
  unfold buyerFold
  by_cases halive : (regs p.1).is_alive
  · rw [if_pos halive]
    refine foldl_inv
      (fun pool => ∀ pr ∈ pool, ∀ e ∈ pr.2, (regs e.1).is_alive = true)
      _ _ pool hpool ?_
    intro res pool' _ hpool'
    rcases buyerDeficitFold_shape (regs p.1) p.1 _ pool' res with hs | ⟨v, hs⟩
    · rw [hs]; exact hpool'
    · rw [hs]
      refine addToPool_entries _ pool' res (p.1, v) hpool' ?_
      exact halive
  · rw [if_neg halive]
    exact hpool

theorem buildSellers_alive (names : List String) (regs : String → Region) :
    ∀ pr ∈ buildSellers names regs, ∀ e ∈ pr.2, (regs e.1).is_alive = true := by
  unfold buildSellers
  refine foldl_inv
    (fun pool : List (Res × List (String × ℚ)) =>
      ∀ pr ∈ pool, ∀ e ∈ pr.2, (regs e.1).is_alive = true)
    _ names [] (fun pr hpr => absurd hpr (List.not_mem_nil pr)) ?_
  intro name pool _ hpool
  by_cases halive : (regs name).is_alive
  · rw [if_pos halive]
    refine foldl_inv
      (fun pool : List (Res × List (String × ℚ)) =>
        ∀ pr ∈ pool, ∀ e ∈ pr.2, (regs e.1).is_alive = true)
      _ _ pool hpool ?_
    intro res pool' _ hpool'
    by_cases hamt : (regs name).surplus res * (3/10) > 5
    · rw [if_pos hamt]
      exact addToPool_entries _ pool' res (name, _) hpool' halive
    · rw [if_neg hamt]
      exact hpool'
  · rw [if_neg halive]
    exact hpool

theorem buildBuyers_keys_nodup (decisions : List (String × Action)) (regs : String → Region) :
    (poolKeys (buildBuyers decisions regs)).Nodup := by
  unfold buildBuyers
  refine foldl_inv (fun pool => (poolKeys pool).Nodup)
    (buyerFold regs) decisions [] List.nodup_nil ?_
  intro p pool _ hpool
  unfold buyerFold
  by_cases halive : (regs p.1).is_alive
  · rw [if_pos halive]
    refine foldl_inv (fun pool => (poolKeys pool).Nodup) _ _ pool hpool ?_
    intro res pool' _ hpool'
    rcases buyerDeficitFold_shape (regs p.1) p.1 _ pool' res with hs | ⟨v, hs⟩
    · rw [hs]; exact hpool'
    · rw [hs]
      exact poolKeys_nodup_addToPool hpool' res (p.1, v)
  · rw [if_neg halive]
    exact hpool

theorem buildBuyers_bucket_count (regs : String → Region) :
    ∀ (dec : List (String × Action)) (pool : List (Res × List (String × ℚ × Res))),
      (dec.map Prod.fst).Nodup →
      (∀ ρ b, countN (bucketAt pool ρ) b ≤ 1) →
      (∀ ρ b, 1 ≤ countN (bucketAt pool ρ) b → ¬ b ∈ dec.map Prod.fst) →
      ∀ ρ b, countN (bucketAt (dec.foldl (buyerFold regs) pool) ρ) b ≤ 1 := by
  intro dec
  induction dec with
  | nil => intro pool _ hcount _ ρ b; exact hcount ρ b
  | cons d rest ih =>
    intro pool hnodup hcount hfresh ρ b
    rw [List.map_cons] at hnodup
    obtain ⟨hd_not, hrest_nodup⟩ := List.nodup_cons.mp hnodup
    have hfold : (d :: rest).foldl (buyerFold regs) pool =
        rest.foldl (buyerFold regs) (buyerFold regs pool d) := rfl
    rw [hfold]
    -- the one-decision bucket growth bound
    have hone : ∀ ρ' b', countN (bucketAt (buyerFold regs pool d) ρ') b' ≤
        countN (bucketAt pool ρ') b' + (if b' = d.1 then 1 else 0) := by
      intro ρ' b'
      unfold buyerFold
      by_cases halive : (regs d.1).is_alive
      · rw [if_pos halive]
        have := foldl_addOnce_bucket d.1 (buyerDeficitFold (regs d.1) d.1
            (RESOURCE_KEYS.filter (fun res => (regs d.1).resource_ratio res > 9/20)))
          (buyerDeficitFold_shape _ _ _)
          (RESOURCE_KEYS.filter
            (fun res => (regs d.1).resource_ratio res <
              if d.2 = Action.trade then 2/5 else 9/50))
          (List.Nodup.filter _ RESOURCE_KEYS_nodup) pool ρ' b'
        refine le_trans this ?_
        have hmono : (if ρ' ∈ RESOURCE_KEYS.filter
            (fun res => (regs d.1).resource_ratio res <
              if d.2 = Action.trade then 2/5 else 9/50) ∧ b' = d.1
            then (1:ℕ) else 0) ≤ (if b' = d.1 then 1 else 0) := by
          by_cases h : ρ' ∈ RESOURCE_KEYS.filter
              (fun res => (regs d.1).resource_ratio res <
                if d.2 = Action.trade then 2/5 else 9/50) ∧ b' = d.1
          · rw [if_pos h, if_pos h.2]
          · rw [if_neg h]
            omega
        omega
      · rw [if_neg halive]
        omega
    -- apply the induction hypothesis to the once-stepped pool
    refine ih (buyerFold regs pool d) hrest_nodup ?_ ?_ ρ b
    · intro ρ' b'
      have h1 := hone ρ' b'
      by_cases hb : b' = d.1
      · have h0 : countN (bucketAt pool ρ') b' = 0 := by
          by_contra hc
          have h1' : 1 ≤ countN (bucketAt pool ρ') b' := Nat.one_le_iff_ne_zero.mpr hc
          exact hfresh ρ' b' h1' (by subst hb; exact List.mem_cons_self _ _)
        rw [if_pos hb] at h1
        omega
      · rw [if_neg hb] at h1
        have := hcount ρ' b'
        omega
    · intro ρ' b' h1' hmem
      have h1 := hone ρ' b'
      by_cases hb : b' = d.1
      · subst hb
        exact hd_not hmem
      · rw [if_neg hb] at h1
        have : 1 ≤ countN (bucketAt pool ρ') b' := by omega
        exact hfresh ρ' b' this (List.mem_cons_of_mem _ hmem)

theorem countKey_eq_count {α : Type} :
    ∀ (pool : List (Res × α)) (ρ : Res), countKey pool ρ = (poolKeys pool).count ρ := by
  intro pool ρ
  induction pool with
  | nil => rfl
  | cons hd rest ih =>
    rw [countKey_cons]
    have : (poolKeys (hd :: rest)).count ρ = (if hd.1 = ρ then 1 else 0) + (poolKeys rest).count ρ := by
      simp only [poolKeys, List.map_cons, List.count_cons]
      by_cases h : hd.1 = ρ
      · rw [if_pos h]
        simp [h, Nat.add_comm]
      · rw [if_neg h]
        simp [h]
    rw [this, ih]

theorem buildBuyers_countKey_le_one (decisions : List (String × Action)) (regs : String → Region)
    (ρ : Res) : countKey (buildBuyers decisions regs) ρ ≤ 1 := by
  rw [countKey_eq_count]
  exact List.nodup_iff_count_le_one.mp (buildBuyers_keys_nodup decisions regs) ρ

theorem buildBuyers_chunk_count (decisions : List (String × Action)) (regs : String → Region)
    (hnodup : (decisions.map Prod.fst).Nodup) :
    ∀ pr ∈ buildBuyers decisions regs, ∀ b, countN pr.2 b ≤ 1 := by
  intro pr hpr b
  have hbucket := buildBuyers_bucket_count regs decisions [] hnodup
    (fun ρ b' => by simp [bucketAt, lookupPool, countN])
    (fun ρ b' h => by simp [bucketAt, lookupPool, countN] at h) pr.1 b
  have hbb : List.foldl (buyerFold regs) [] decisions = buildBuyers decisions regs := rfl
  rw [hbb, bucketAt_of_mem_nodup (buildBuyers_keys_nodup decisions regs) hpr] at hbucket
  exact hbucket

/-! ### Negotiation-level invariants -/

theorem negotiate_trades_eqer (rand : ℕ → ℚ) (ctr : ℕ) (cycle : ℤ) (names : List String)
    (regs : String → Region) (dec : List (String × Action)) (ts : TradeState) :
    ∀ n, EqExceptResources (regs n)
      ((negotiate_trades rand ctr cycle names regs dec ts).1 n) := by
  intro n
  unfold negotiate_trades
  by_cases hdis : ts.disrupted
  · rw [if_pos hdis]
    exact EqExceptResources.refl _
  · rw [if_neg hdis]
    exact (processAll_spec rand cycle (buildBuyers dec regs) (buildSellers names regs)
      regs ts.decay_relationships [] ctr).1 n

theorem negotiate_trades_dead (rand : ℕ → ℚ) (ctr : ℕ) (cycle : ℤ) (names : List String)
    (regs : String → Region) (dec : List (String × Action)) (ts : TradeState) :
    ∀ n, (regs n).is_alive = false →
      (negotiate_trades rand ctr cycle names regs dec ts).1 n = regs n := by
  intro n hdead
  unfold negotiate_trades
  by_cases hdis : ts.disrupted
  · rw [if_pos hdis]
  · rw [if_neg hdis]
    exact (processAll_spec rand cycle (buildBuyers dec regs) (buildSellers names regs)
      regs ts.decay_relationships [] ctr).2.1 (buildBuyers_alive dec regs) n hdead

theorem negotiate_trades_bounds (rand : ℕ → ℚ) (ctr : ℕ) (cycle : ℤ) (names : List String)
    (regs : String → Region) (dec : List (String × Action)) (ts : TradeState) :
    ∀ n, ResourceBounds (regs n) →
      ResourceBounds ((negotiate_trades rand ctr cycle names regs dec ts).1 n) := by
  intro n hb
  unfold negotiate_trades
  by_cases hdis : ts.disrupted
  · rw [if_pos hdis]
    exact hb
  · rw [if_neg hdis]
    exact (processAll_spec rand cycle (buildBuyers dec regs) (buildSellers names regs)
      regs ts.decay_relationships [] ctr).2.2.1 n hb

theorem negotiate_trades_relRange (rand : ℕ → ℚ) (ctr : ℕ) (cycle : ℤ) (names : List String)
    (regs : String → Region) (dec : List (String × Action)) (ts : TradeState) :
    RelInRange ts → RelInRange (negotiate_trades rand ctr cycle names regs dec ts).2.1 := by
  intro hr
  unfold negotiate_trades
  by_cases hdis : ts.disrupted
  · rw [if_pos hdis]
    exact hr
  · rw [if_neg hdis]
    exact (processAll_spec rand cycle (buildBuyers dec regs) (buildSellers names regs)
      regs ts.decay_relationships [] ctr).2.2.2.1 (decay_relInRange hr)

/-- Key matching property: with duplicate-free decision keys, every region
buys each resource at most once per `negotiate_trades` call. -/
theorem negotiate_trades_once (rand : ℕ → ℚ) (ctr : ℕ) (cycle : ℤ) (names : List String)
    (regs : String → Region) (dec : List (String × Action)) (ts : TradeState)
    (hnodup : (dec.map Prod.fst).Nodup) :
    ∀ b ρ, countB (negotiate_trades rand ctr cycle names regs dec ts).2.2.1 b ρ ≤ 1 := by
  intro b ρ
  unfold negotiate_trades
  by_cases hdis : ts.disrupted
  · rw [if_pos hdis]
    simp [countB]
  · rw [if_neg hdis]
    have h := (processAll_spec rand cycle (buildBuyers dec regs) (buildSellers names regs)
      regs ts.decay_relationships [] ctr).2.2.2.2
      (buildBuyers_chunk_count dec regs hnodup) b ρ
    have hk := buildBuyers_countKey_le_one dec regs ρ
    rw [countB_nil] at h
    show countB (processAll rand cycle (buildBuyers dec regs) (buildSellers names regs)
      regs ts.decay_relationships [] ctr).2.2.1 b ρ ≤ 1
    omega

/-! ### Event-phase invariants -/

theorem eventTargets_alive (w : WorldState) (e : Event) :
    ∀ t ∈ eventTargets w e, (w.regs t).is_alive = true := by
  intro t ht
  unfold eventTargets at ht
  split at ht
  · exact (List.mem_filter.mp ht).2
  · split at ht
    · next hcond =>
      simp only [List.mem_singleton] at ht
      subst ht
      exact hcond.2
    · simp at ht

theorem applyEvent_names (w : WorldState) (e : Event) :
    (applyEvent w e).names = w.names ∧ (applyEvent w e).cycle = w.cycle := by
  unfold applyEvent
  refine foldl_inv (fun w' : WorldState => w'.names = w.names ∧ w'.cycle = w.cycle)
    _ (eventTargets w e) w ⟨rfl, rfl⟩ ?_
  intro t w' _ hw'
  exact hw'

/-- Any per-region predicate closed under the event body is preserved
pointwise by one event application. -/
theorem applyEvent_pointwise (w : WorldState) (e : Event) (Q : Region → Prop)
    (hQ : ∀ r, Q r → Q (applyEventTarget e.etype e.severity r)) :
    (∀ n, Q (w.regs n)) → ∀ n, Q ((applyEvent w e).regs n) := by
  intro hall
  unfold applyEvent
  refine foldl_inv (fun w' : WorldState => ∀ n, Q (w'.regs n))
    _ (eventTargets w e) w hall ?_
  intro t w' _ hw' n
  dsimp only
  by_cases hn : n = t
  · subst hn
    simp only [updF_self]
    exact hQ _ (hw' n)
  · rw [updF_ne _ _ _ _ hn]
    exact hw' n

theorem applyEvent_const_fields (w : WorldState) (e : Event) :
    ∀ n, ((applyEvent w e).regs n).is_alive = (w.regs n).is_alive ∧
         ((applyEvent w e).regs n).collapse_cycle = (w.regs n).collapse_cycle ∧
         ((applyEvent w e).regs n).max_resources = (w.regs n).max_resources ∧
         ((applyEvent w e).regs n).consumption_per_pop = (w.regs n).consumption_per_pop := by
  unfold applyEvent
  refine foldl_inv (fun w' : WorldState => ∀ n,
      (w'.regs n).is_alive = (w.regs n).is_alive ∧
      (w'.regs n).collapse_cycle = (w.regs n).collapse_cycle ∧
      (w'.regs n).max_resources = (w.regs n).max_resources ∧
      (w'.regs n).consumption_per_pop = (w.regs n).consumption_per_pop)
    _ (eventTargets w e) w (fun n => ⟨rfl, rfl, rfl, rfl⟩) ?_
  intro t w' _ hw' n
  dsimp only
  by_cases hn : n = t
  · subst hn
    simp only [updF_self]
    obtain ⟨h1, h2, h3, h4⟩ := hw' n
    exact ⟨(applyEventTarget_is_alive _ _ _).trans h1,
           (applyEventTarget_collapse _ _ _).trans h2,
           (applyEventTarget_max _ _ _).trans h3,
           (applyEventTarget_cpp _ _ _).trans h4⟩
  · rw [updF_ne _ _ _ _ hn]
    exact hw' n

theorem applyEvent_dead (w : WorldState) (e : Event) (n : String)
    (hdead : (w.regs n).is_alive = false) : (applyEvent w e).regs n = w.regs n := by
  unfold applyEvent
  refine foldl_inv (fun w' : WorldState => w'.regs n = w.regs n)
    _ (eventTargets w e) w rfl ?_
  intro t w' ht hw'
  have hne : n ≠ t := by
    intro h
    rw [h, eventTargets_alive w e t ht] at hdead
    cases hdead
  dsimp only
  rw [updF_ne _ _ _ _ hne]
  exact hw'

theorem applyEvent_relRange (w : WorldState) (e : Event) (hs : 0 ≤ e.severity)
    (hr : RelInRange w.ts) : RelInRange (applyEvent w e).ts := by
  unfold applyEvent
  refine foldl_inv (fun w' : WorldState => RelInRange w'.ts)
    _ (eventTargets w e) w hr ?_
  intro t w' _ hw'
  by_cases hdis : e.etype = EventType.trade_disruption
  · simp only [if_pos hdis]
    exact disrupt_relInRange hs hw'
  · simp only [if_neg hdis]
    exact hw'

theorem phaseEvents_names (evts : List Event) (w : WorldState) :
    (phaseEvents evts w).names = w.names ∧ (phaseEvents evts w).cycle = w.cycle := by
  unfold phaseEvents
  refine foldl_inv (fun w' : WorldState => w'.names = w.names ∧ w'.cycle = w.cycle)
    _ evts w ⟨rfl, rfl⟩ ?_
  intro e w' _ hw'
  obtain ⟨h1, h2⟩ := applyEvent_names w' e
  exact ⟨h1.trans hw'.1, h2.trans hw'.2⟩

theorem phaseEvents_pointwise (evts : List Event) (w : WorldState) (Q : Region → Prop)
    (hQ : ∀ e ∈ evts, ∀ r, Q r → Q (applyEventTarget e.etype e.severity r)) :
    (∀ n, Q (w.regs n)) → ∀ n, Q ((phaseEvents evts w).regs n) := by
  intro hall
  unfold phaseEvents
  refine foldl_inv (fun w' : WorldState => ∀ n, Q (w'.regs n)) _ evts w hall ?_
  intro e w' he hw'
  exact applyEvent_pointwise w' e Q (hQ e he) hw'

theorem phaseEvents_const_fields (evts : List Event) (w : WorldState) :
    ∀ n, ((phaseEvents evts w).regs n).is_alive = (w.regs n).is_alive ∧
         ((phaseEvents evts w).regs n).collapse_cycle = (w.regs n).collapse_cycle ∧
         ((phaseEvents evts w).regs n).max_resources = (w.regs n).max_resources ∧
         ((phaseEvents evts w).regs n).consumption_per_pop = (w.regs n).consumption_per_pop := by
  unfold phaseEvents
  refine foldl_inv (fun w' : WorldState => ∀ n,
      (w'.regs n).is_alive = (w.regs n).is_alive ∧
      (w'.regs n).collapse_cycle = (w.regs n).collapse_cycle ∧
      (w'.regs n).max_resources = (w.regs n).max_resources ∧
      (w'.regs n).consumption_per_pop = (w.regs n).consumption_per_pop)
    _ evts w (fun n => ⟨rfl, rfl, rfl, rfl⟩) ?_
  intro e w' _ hw' n
  obtain ⟨h1, h2, h3, h4⟩ := applyEvent_const_fields w' e n
  obtain ⟨g1, g2, g3, g4⟩ := hw' n
  exact ⟨h1.trans g1, h2.trans g2, h3.trans g3, h4.trans g4⟩

theorem phaseEvents_dead (evts : List Event) (w : WorldState) (n : String)
    (hdead : (w.regs n).is_alive = false) : (phaseEvents evts w).regs n = w.regs n := by
  unfold phaseEvents
  refine foldl_inv (fun w' : WorldState => w'.regs n = w.regs n) _ evts w rfl ?_
  intro e w' _ hw'
  rw [applyEvent_dead w' e n (by rw [hw']; exact hdead)]
  exact hw'

theorem phaseEvents_relRange (evts : List Event) (w : WorldState)
    (hs : ∀ e ∈ evts, 0 ≤ e.severity) (hr : RelInRange w.ts) :
    RelInRange (phaseEvents evts w).ts := by
  unfold phaseEvents
  refine foldl_inv (fun w' : WorldState => RelInRange w'.ts) _ evts w hr ?_
  intro e w' he hw'
  exact applyEvent_relRange w' e (hs e he) hw'

/-! ### Step-pipeline lemmas -/

theorem EqExceptResources.cpp_eq {r r' : Region} (h : EqExceptResources r r') :
    r'.consumption_per_pop = r.consumption_per_pop := by rw [h]

theorem EqExceptResources.rates_eq {r r' : Region} (h : EqExceptResources r r') :
    r'.production_rates = r.production_rates := by rw [h]

theorem eqer_wf {r r' : Region} (h : EqExceptResources r r') (hw : RegionWf r) :
    RegionWf r' := by
  obtain ⟨h1, h2, h3, h4, h5⟩ := hw
  refine ⟨?_, ?_, ?_, ?_, ?_⟩
  · rw [h.population_eq]; exact h1
  · rw [h.tech_eq]; exact h2
  · rw [h.cpp_eq]; exact h3
  · rw [h.rates_eq]; exact h4
  · rw [h.max_eq]; exact h5

theorem bounds_max_nonneg {r : Region} (h : ResourceBounds r) :
    ∀ k, 0 ≤ r.max_resources.get k := fun k => le_trans (h k).1 (h k).2

/-- The guard `if contains ∧ alive` is false for a dead region. -/
theorem guard_false_of_dead {r : Region} (hdead : r.is_alive = false) (c : Bool) :
    ¬ (c ∧ r.is_alive) := by
  intro h
  rw [hdead] at h
  exact Bool.false_ne_true h.2

theorem phaseProd_regs (w : WorldState) (n : String) :
    (phaseProd w).regs n =
      if w.names.contains n ∧ (w.regs n).is_alive then prodRegion (w.regs n) else w.regs n := rfl

theorem phaseCons_regs (w : WorldState) (n : String) :
    (phaseCons w).regs n =
      if w.names.contains n ∧ (w.regs n).is_alive then consRegion (w.regs n) else w.regs n := rfl

theorem phaseDem_regs (w : WorldState) (dec : List (String × Action)) (n : String) :
    (phaseDem dec w).regs n =
      if w.names.contains n ∧ (w.regs n).is_alive then
        demRegion w.cycle (lookupDec dec n) (w.regs n)
      else w.regs n := rfl

theorem phaseProd_alive_eq (w : WorldState) (n : String) :
    ((phaseProd w).regs n).is_alive = (w.regs n).is_alive := by
  rw [phaseProd_regs]
  split
  · exact (prodRegion_eqer _).is_alive_eq
  · rfl

theorem phaseCons_alive_eq (w : WorldState) (n : String) :
    ((phaseCons w).regs n).is_alive = (w.regs n).is_alive := by
  rw [phaseCons_regs]
  split
  · exact (consRegion_eqer _).is_alive_eq
  · rfl

theorem phaseActions_regs (dec : List (String × Action)) (w : WorldState) (n : String) :
    (phaseActions dec w).regs n =
      match lookupDec dec n with
      | some a => if (w.regs n).is_alive then applyAction a (w.regs n) else w.regs n
      | none => w.regs n := rfl

theorem phaseActions_alive_eq (dec : List (String × Action)) (w : WorldState) (n : String) :
    ((phaseActions dec w).regs n).is_alive = (w.regs n).is_alive := by
  rw [phaseActions_regs]
  rcases lookupDec dec n with _ | a
  · rfl
  · dsimp only
    split
    · exact applyAction_is_alive _ _
    · rfl

theorem phaseProd_dead (w : WorldState) (n : String) (hdead : (w.regs n).is_alive = false) :
    (phaseProd w).regs n = w.regs n := by
  rw [phaseProd_regs, if_neg (guard_false_of_dead hdead _)]

theorem phaseCons_dead (w : WorldState) (n : String) (hdead : (w.regs n).is_alive = false) :
    (phaseCons w).regs n = w.regs n := by
  rw [phaseCons_regs, if_neg (guard_false_of_dead hdead _)]

theorem phaseDem_dead (w : WorldState) (dec : List (String × Action)) (n : String)
    (hdead : (w.regs n).is_alive = false) : (phaseDem dec w).regs n = w.regs n := by
  rw [phaseDem_regs, if_neg (guard_false_of_dead hdead _)]

theorem phaseActions_dead (dec : List (String × Action)) (w : WorldState) (n : String)
    (hdead : (w.regs n).is_alive = false) : (phaseActions dec w).regs n = w.regs n := by
  rw [phaseActions_regs]
  rcases lookupDec dec n with _ | a
  · rfl
  · dsimp only
    rw [if_neg (fun h => Bool.false_ne_true (hdead ▸ h))]

/-- A region that is dead going into a step is completely untouched by it. -/
theorem step_dead_frozen (evts : List Event) (rand : ℕ → ℚ) (dec : List (String × Action))
    (w : WorldState) (ctr : ℕ) (n : String)
    (hdead : (w.regs n).is_alive = false) :
    (step evts rand dec w ctr).1.regs n = w.regs n := by
  set w₀ : WorldState := { w with cycle := w.cycle + 1 } with hw₀
  have e0 : w₀.regs n = w.regs n := rfl
  have e1 : (phaseProd w₀).regs n = w.regs n := by
    rw [phaseProd_dead w₀ n (by rw [e0]; exact hdead), e0]
  have e2 : (phaseCons (phaseProd w₀)).regs n = w.regs n := by
    rw [phaseCons_dead _ n (by rw [e1]; exact hdead), e1]
  have e3 : (phaseActions dec (phaseCons (phaseProd w₀))).regs n = w.regs n := by
    rw [phaseActions_dead dec _ n (by rw [e2]; exact hdead), e2]
  have e4 : (phaseEvents evts (phaseActions dec (phaseCons (phaseProd w₀)))).regs n = w.regs n := by
    rw [phaseEvents_dead evts _ n (by rw [e3]; exact hdead), e3]
  set w₄ := phaseEvents evts (phaseActions dec (phaseCons (phaseProd w₀))) with hw₄
  set tr := negotiate_trades rand ctr w₄.cycle w₄.names w₄.regs dec w₄.ts with htr
  have e5 : tr.1 n = w.regs n := by
    rw [htr, negotiate_trades_dead rand ctr w₄.cycle w₄.names w₄.regs dec w₄.ts n
      (by rw [e4]; exact hdead), e4]
  have e6 : (phaseDem dec { w₄ with regs := tr.1, ts := tr.2.1 }).regs n = w.regs n := by
    rw [phaseDem_dead _ dec n (by show (tr.1 n).is_alive = false; rw [e5]; exact hdead)]
    exact e5
  exact e6

theorem step_cycle_eq (evts : List Event) (rand : ℕ → ℚ) (dec : List (String × Action))
    (w : WorldState) (ctr : ℕ) :
    (step evts rand dec w ctr).1.cycle = w.cycle + 1 := by
  show (phaseEvents evts (phaseActions dec (phaseCons
    (phaseProd { w with cycle := w.cycle + 1 })))).cycle = w.cycle + 1
  rw [(phaseEvents_names _ _).2]
  rfl

theorem step_names_eq (evts : List Event) (rand : ℕ → ℚ) (dec : List (String × Action))
    (w : WorldState) (ctr : ℕ) :
    (step evts rand dec w ctr).1.names = w.names := by
  show (phaseEvents evts (phaseActions dec (phaseCons
    (phaseProd { w with cycle := w.cycle + 1 })))).names = w.names
  rw [(phaseEvents_names _ _).1]
  rfl

/-- Single-region version of the event-fold preservation. -/
theorem applyEvent_pointwise_one (w : WorldState) (e : Event) (n : String) (Q : Region → Prop)
    (hQ : ∀ r, Q r → Q (applyEventTarget e.etype e.severity r)) :
    Q (w.regs n) → Q ((applyEvent w e).regs n) := by
  intro hq
  unfold applyEvent
  refine foldl_inv (fun w' : WorldState => Q (w'.regs n)) _ (eventTargets w e) w hq ?_
  intro t w' _ hw'
  dsimp only
  by_cases hn : n = t
  · subst hn
    rw [updF_self]
    exact hQ _ hw'
  · rw [updF_ne _ _ _ _ hn]
    exact hw'

theorem phaseEvents_pointwise_one (evts : List Event) (w : WorldState) (n : String)
    (Q : Region → Prop)
    (hQ : ∀ e ∈ evts, ∀ r, Q r → Q (applyEventTarget e.etype e.severity r)) :
    Q (w.regs n) → Q ((phaseEvents evts w).regs n) := by
  intro hq
  unfold phaseEvents
  refine foldl_inv (fun w' : WorldState => Q (w'.regs n)) _ evts w hq ?_
  intro e w' he hw'
  exact applyEvent_pointwise_one w' e n Q (hQ e he) hw'

theorem demRegion_resources (cycle : ℤ) (act : Option Action) (r : Region) :
    (demRegion cycle act r).resources = r.resources := by
  unfold demRegion
  dsimp only
  repeat' split
  all_goals rfl

theorem demRegion_max (cycle : ℤ) (act : Option Action) (r : Region) :
    (demRegion cycle act r).max_resources = r.max_resources := by
  unfold demRegion
  dsimp only
  repeat' split
  all_goals rfl

theorem demRegion_happiness (cycle : ℤ) (act : Option Action) (r : Region) :
    (demRegion cycle act r).happiness =
      (7/10) * r.happiness + (3/10) * r.overall_satisfaction := by
  unfold demRegion
  dsimp only
  repeat' split
  all_goals rfl

theorem demRegion_bounds {cycle : ℤ} {act : Option Action} {r : Region}
    (h : ResourceBounds r) : ResourceBounds (demRegion cycle act r) := by
  intro k
  rw [show (demRegion cycle act r).resources.get k = r.resources.get k from by
        rw [demRegion_resources],
      show (demRegion cycle act r).max_resources.get k = r.max_resources.get k from by
        rw [demRegion_max]]
  exact h k

/-- The resource-bound invariant is preserved by the whole step pipeline. -/
theorem step_bounds (evts : List Event) (rand : ℕ → ℚ) (dec : List (String × Action))
    (w : WorldState) (ctr : ℕ)
    (hwf : ∀ n, RegionWf (w.regs n)) (hb : ∀ n, ResourceBounds (w.regs n)) :
    ∀ n, ResourceBounds ((step evts rand dec w ctr).1.regs n) := by
  set w₀ : WorldState := { w with cycle := w.cycle + 1 } with hw₀
  have h0 : ∀ n, RegionWf (w₀.regs n) ∧ ResourceBounds (w₀.regs n) :=
    fun n => ⟨hwf n, hb n⟩
  have h1 : ∀ n, RegionWf ((phaseProd w₀).regs n) ∧ ResourceBounds ((phaseProd w₀).regs n) := by
    intro n
    rw [phaseProd_regs]
    split
    · exact ⟨eqer_wf (prodRegion_eqer _) (h0 n).1, prodRegion_bounds (h0 n).1 (h0 n).2⟩
    · exact h0 n
  have h2 : ∀ n, RegionWf ((phaseCons (phaseProd w₀)).regs n) ∧
      ResourceBounds ((phaseCons (phaseProd w₀)).regs n) := by
    intro n
    rw [phaseCons_regs]
    split
    · refine ⟨eqer_wf (consRegion_eqer _) (h1 n).1, ?_⟩
      obtain ⟨hwf', hb'⟩ := h1 n
      obtain ⟨hpop, -, hcpp, -, hmax⟩ := hwf'
      exact consRegion_bounds hcpp hpop hmax (fun k => (hb' k).2)
    · exact h1 n
  have h3 : ∀ n, ResourceBounds ((phaseActions dec (phaseCons (phaseProd w₀))).regs n) := by
    intro n
    rw [phaseActions_regs]
    rcases lookupDec dec n with _ | a
    · exact (h2 n).2
    · dsimp only
      split
      · exact applyAction_bounds (bounds_max_nonneg (h2 n).2)
      · exact (h2 n).2
  have h4 : ∀ n, ResourceBounds
      ((phaseEvents evts (phaseActions dec (phaseCons (phaseProd w₀)))).regs n) := by
    intro n
    exact phaseEvents_pointwise_one evts _ n ResourceBounds
      (fun e _ r hr => applyEventTarget_bounds (bounds_max_nonneg hr)) (h3 n)
  set w₄ := phaseEvents evts (phaseActions dec (phaseCons (phaseProd w₀))) with hw₄
  set tr := negotiate_trades rand ctr w₄.cycle w₄.names w₄.regs dec w₄.ts with htr
  have h5 : ∀ n, ResourceBounds (tr.1 n) := by
    intro n
    rw [htr]
    exact negotiate_trades_bounds rand ctr w₄.cycle w₄.names w₄.regs dec w₄.ts n (h4 n)
  intro n
  show ResourceBounds ((phaseDem dec { w₄ with regs := tr.1, ts := tr.2.1 }).regs n)
  rw [phaseDem_regs]
  split
  · exact demRegion_bounds (h5 n)
  · exact h5 n

theorem demRegion_cases (cycle : ℤ) (act : Option Action) (r : Region) :
    ((demRegion cycle act r).is_alive = false ∧
      (demRegion cycle act r).collapse_cycle = cycle) ∨
    ((demRegion cycle act r).is_alive = r.is_alive ∧
      (demRegion cycle act r).collapse_cycle = r.collapse_cycle) := by
  unfold demRegion
  dsimp only
  repeat' split
  all_goals first
    | exact Or.inl ⟨rfl, rfl⟩
    | exact Or.inr ⟨rfl, rfl⟩

theorem demRegion_collapse {cycle : ℤ} {act : Option Action} {r : Region}
    (halive : r.is_alive = true) (hdead : (demRegion cycle act r).is_alive = false) :
    (demRegion cycle act r).collapse_cycle = cycle := by
  rcases demRegion_cases cycle act r with ⟨-, h2⟩ | ⟨h1, -⟩
  · exact h2
  · rw [h1, halive] at hdead
    cases hdead

/-- Phases 1–5 never change `is_alive`; a region alive before the step that is
dead after it was killed by the demographic phase, which stamps the new cycle
number into `collapse_cycle`. -/
theorem step_collapse_cycle (evts : List Event) (rand : ℕ → ℚ) (dec : List (String × Action))
    (w : WorldState) (ctr : ℕ) (n : String)
    (halive : (w.regs n).is_alive = true)
    (hdead : ((step evts rand dec w ctr).1.regs n).is_alive = false) :
    ((step evts rand dec w ctr).1.regs n).collapse_cycle = w.cycle + 1 := by
  set w₀ : WorldState := { w with cycle := w.cycle + 1 } with hw₀
  have a1 : ((phaseProd w₀).regs n).is_alive = true := by
    rw [phaseProd_alive_eq]; exact halive
  have a2 : ((phaseCons (phaseProd w₀)).regs n).is_alive = true := by
    rw [phaseCons_alive_eq]; exact a1
  have a3 : ((phaseActions dec (phaseCons (phaseProd w₀))).regs n).is_alive = true := by
    rw [phaseActions_alive_eq]; exact a2
  set w₃ := phaseActions dec (phaseCons (phaseProd w₀)) with hw₃
  have a4 : ((phaseEvents evts w₃).regs n).is_alive = true := by
    rw [(phaseEvents_const_fields evts w₃ n).1]; exact a3
  set w₄ := phaseEvents evts w₃ with hw₄
  set tr := negotiate_trades rand ctr w₄.cycle w₄.names w₄.regs dec w₄.ts with htr
  have a5 : (tr.1 n).is_alive = true := by
    rw [htr, (negotiate_trades_eqer rand ctr w₄.cycle w₄.names w₄.regs dec w₄.ts n).is_alive_eq]
    exact a4
  set w₅ : WorldState := { w₄ with regs := tr.1, ts := tr.2.1 } with hw₅
  have hcyc : w₅.cycle = w.cycle + 1 := by
    show w₄.cycle = w.cycle + 1
    rw [hw₄, (phaseEvents_names evts w₃).2]
    rfl
  have hregeq : (step evts rand dec w ctr).1.regs n = (phaseDem dec w₅).regs n := rfl
  rw [hregeq] at hdead ⊢
  rw [phaseDem_regs] at hdead ⊢
  by_cases hguard : (w₅.names.contains n ∧ (w₅.regs n).is_alive : Prop)
  · rw [if_pos hguard] at hdead ⊢
    rw [demRegion_collapse a5 hdead]
    exact hcyc
  · rw [if_neg hguard] at hdead
    rw [show w₅.regs n = tr.1 n from rfl, a5] at hdead
    cases hdead

theorem step_ts_relRange (evts : List Event) (rand : ℕ → ℚ) (dec : List (String × Action))
    (w : WorldState) (ctr : ℕ) (hs : ∀ e ∈ evts, 0 ≤ e.severity)
    (hr : RelInRange w.ts) : RelInRange (step evts rand dec w ctr).1.ts := by
  set w₀ : WorldState := { w with cycle := w.cycle + 1 } with hw₀
  set w₃ := phaseActions dec (phaseCons (phaseProd w₀)) with hw₃
  have h3 : RelInRange w₃.ts := hr
  have h4 : RelInRange (phaseEvents evts w₃).ts := phaseEvents_relRange evts w₃ hs h3
  set w₄ := phaseEvents evts w₃ with hw₄
  show RelInRange (negotiate_trades rand ctr w₄.cycle w₄.names w₄.regs dec w₄.ts).2.1
  exact negotiate_trades_relRange rand ctr w₄.cycle w₄.names w₄.regs dec w₄.ts h4

/-- Iterated stepping leaves a dead region completely untouched. -/
theorem multiStep_dead_frozen :
    ∀ (script : List (List Event × (ℕ → ℚ) × List (String × Action))) (w : WorldState)
      (n : String), (w.regs n).is_alive = false →
      (multiStep script w).regs n = w.regs n := by
  intro script
  induction script with
  | nil => intro w n _; rfl
  | cons s rest ih =>
    intro w n h
    obtain ⟨evts, rand, dec⟩ := s
    have h1 := step_dead_frozen evts rand dec w 0 n h
    have h2 : ((step evts rand dec w 0).1.regs n).is_alive = false := by
      rw [h1]; exact h
    rw [show multiStep ((evts, rand, dec) :: rest) w = multiStep rest (step evts rand dec w 0).1
      from rfl]
    rw [ih (step evts rand dec w 0).1 n h2, h1]

theorem multiStep_cycle :
    ∀ (script : List (List Event × (ℕ → ℚ) × List (String × Action))) (w : WorldState),
      (multiStep script w).cycle = w.cycle + script.length := by
  intro script
  induction script with
  | nil => intro w; simp [multiStep]
  | cons s rest ih =>
    intro w
    obtain ⟨evts, rand, dec⟩ := s
    rw [show multiStep ((evts, rand, dec) :: rest) w = multiStep rest (step evts rand dec w 0).1
      from rfl]
    rw [ih, step_cycle_eq]
    simp only [List.length_cons]
    omega

/-- Happiness stays in `[0, 1]` through one step for a well-formed region. -/
theorem step_happiness_mem (evts : List Event) (rand : ℕ → ℚ) (dec : List (String × Action))
    (w : WorldState) (ctr : ℕ) (n : String)
    (hsev : ∀ e ∈ evts, 0 ≤ e.severity ∧ e.severity ≤ 1)
    (hh0 : 0 ≤ (w.regs n).happiness) (hh1 : (w.regs n).happiness ≤ 1)
    (hmax : ∀ k, 1 ≤ (w.regs n).max_resources.get k)
    (hcpp : ∀ k, 0 ≤ (w.regs n).consumption_per_pop.get k)
    (hpop : 0 ≤ (w.regs n).population) :
    0 ≤ ((step evts rand dec w ctr).1.regs n).happiness ∧
      ((step evts rand dec w ctr).1.regs n).happiness ≤ 1 := by
  rcases Bool.eq_false_or_eq_true (w.regs n).is_alive with halive | hdead
  case inr =>
    rw [step_dead_frozen evts rand dec w ctr n hdead]
    exact ⟨hh0, hh1⟩
  case inl =>
  set w₀ : WorldState := { w with cycle := w.cycle + 1 } with hw₀
  set w₁ := phaseProd w₀ with hw₁
  set w₂ := phaseCons w₁ with hw₂
  set w₃ := phaseActions dec w₂ with hw₃
  set w₄ := phaseEvents evts w₃ with hw₄
  set tr := negotiate_trades rand ctr w₄.cycle w₄.names w₄.regs dec w₄.ts with htr
  set w₅ : WorldState := { w₄ with regs := tr.1, ts := tr.2.1 } with hw₅
  have hstep : (step evts rand dec w ctr).1.regs n = (phaseDem dec w₅).regs n := rfl
  have hQev : ∀ e ∈ evts, ∀ r : Region,
      (ResourceBounds r ∧ 0 ≤ r.happiness ∧ r.happiness ≤ 1) →
      (ResourceBounds (applyEventTarget e.etype e.severity r) ∧
        0 ≤ (applyEventTarget e.etype e.severity r).happiness ∧
        (applyEventTarget e.etype e.severity r).happiness ≤ 1) := by
    intro e he r hr
    refine ⟨applyEventTarget_bounds (bounds_max_nonneg hr.1), ?_⟩
    exact applyEventTarget_happiness_mem (hsev e he).1 (hsev e he).2 hr.2.1 hr.2.2
  have hHev : ∀ e ∈ evts, ∀ r : Region,
      (0 ≤ r.happiness ∧ r.happiness ≤ 1) →
      (0 ≤ (applyEventTarget e.etype e.severity r).happiness ∧
        (applyEventTarget e.etype e.severity r).happiness ≤ 1) := by
    intro e he r hr
    exact applyEventTarget_happiness_mem (hsev e he).1 (hsev e he).2 hr.1 hr.2
  by_cases hcont : w.names.contains n = true
  · -- the region participates in the dict-wide phases
    have g1 : w₁.regs n = prodRegion (w.regs n) := by
      rw [hw₁, phaseProd_regs, if_pos ⟨hcont, halive⟩]
    have e1 : EqExceptResources (w.regs n) (w₁.regs n) := by
      rw [g1]; exact prodRegion_eqer _
    have g2 : w₂.regs n = consRegion (w₁.regs n) := by
      rw [hw₂, phaseCons_regs, if_pos ⟨hcont, by rw [e1.is_alive_eq]; exact halive⟩]
    have hb2 : ResourceBounds (w₂.regs n) := by
      rw [g2]
      refine consRegion_bounds ?_ ?_ ?_ ?_
      · intro k; rw [e1.cpp_eq]; exact hcpp k
      · rw [e1.population_eq]; exact hpop
      · intro k; rw [e1.max_eq]; exact le_trans zero_le_one (hmax k)
      · intro k
        rw [g1]
        exact prodRegion_le_max _ k
    have hh2 : 0 ≤ (w₂.regs n).happiness ∧ (w₂.regs n).happiness ≤ 1 := by
      rw [g2, (consRegion_eqer _).happiness_eq, e1.happiness_eq]
      exact ⟨hh0, hh1⟩
    have al2 : (w₂.regs n).is_alive = true := by
      rw [g2, (consRegion_eqer _).is_alive_eq, e1.is_alive_eq]
      exact halive
    have h3 : ResourceBounds (w₃.regs n) ∧
        0 ≤ (w₃.regs n).happiness ∧ (w₃.regs n).happiness ≤ 1 := by
      rw [hw₃, phaseActions_regs]
      rcases lookupDec dec n with _ | a
      · exact ⟨hb2, hh2⟩
      · dsimp only
        rw [if_pos al2]
        exact ⟨applyAction_bounds (bounds_max_nonneg hb2),
          applyAction_happiness_mem hh2.1 hh2.2⟩
    have h4 : ResourceBounds (w₄.regs n) ∧
        0 ≤ (w₄.regs n).happiness ∧ (w₄.regs n).happiness ≤ 1 := by
      rw [hw₄]
      exact phaseEvents_pointwise_one evts w₃ n
        (fun r => ResourceBounds r ∧ 0 ≤ r.happiness ∧ r.happiness ≤ 1) hQev h3
    have h5 : ResourceBounds (tr.1 n) ∧
        0 ≤ (tr.1 n).happiness ∧ (tr.1 n).happiness ≤ 1 := by
      constructor
      · rw [htr]
        exact negotiate_trades_bounds rand ctr w₄.cycle w₄.names w₄.regs dec w₄.ts n h4.1
      · rw [htr, (negotiate_trades_eqer rand ctr w₄.cycle w₄.names w₄.regs dec w₄.ts n).happiness_eq]
        exact h4.2
    have halive5 : (tr.1 n).is_alive = true := by
      rw [htr, (negotiate_trades_eqer rand ctr w₄.cycle w₄.names w₄.regs dec w₄.ts n).is_alive_eq]
      have : (w₄.regs n).is_alive = (w₃.regs n).is_alive := (phaseEvents_const_fields evts w₃ n).1
      rw [this, hw₃, phaseActions_alive_eq, hw₂, phaseCons_alive_eq, hw₁, phaseProd_alive_eq]
      exact halive
    have hcont5 : w₅.names.contains n = true := by
      show w₄.names.contains n = true
      rw [hw₄, (phaseEvents_names evts w₃).1]
      exact hcont
    rw [hstep, phaseDem_regs, if_pos ⟨hcont5, halive5⟩]
    rw [demRegion_happiness]
    have hsat := overall_satisfaction_mem h5.1
    constructor
    · have := h5.2.1
      have := hsat.1
      linarith
    · have := h5.2.2
      have := hsat.2
      linarith
  · -- the region is outside the dict: only an action and trade could touch it,
    -- and neither drives happiness out of range
    have g1 : w₁.regs n = w.regs n := by
      rw [hw₁, phaseProd_regs, if_neg (fun h => hcont h.1)]
    have g2 : w₂.regs n = w.regs n := by
      rw [hw₂, phaseCons_regs, g1, if_neg (fun h => hcont h.1)]
    have h3 : 0 ≤ (w₃.regs n).happiness ∧ (w₃.regs n).happiness ≤ 1 := by
      rw [hw₃, phaseActions_regs, g2]
      rcases lookupDec dec n with _ | a
      · exact ⟨hh0, hh1⟩
      · dsimp only
        rw [if_pos halive]
        exact applyAction_happiness_mem hh0 hh1
    have h4 : 0 ≤ (w₄.regs n).happiness ∧ (w₄.regs n).happiness ≤ 1 := by
      rw [hw₄]
      exact phaseEvents_pointwise_one evts w₃ n
        (fun r => 0 ≤ r.happiness ∧ r.happiness ≤ 1) hHev h3
    have h5 : 0 ≤ (tr.1 n).happiness ∧ (tr.1 n).happiness ≤ 1 := by
      rw [htr, (negotiate_trades_eqer rand ctr w₄.cycle w₄.names w₄.regs dec w₄.ts n).happiness_eq]
      exact h4
    have hcont5 : ¬ (w₅.names.contains n = true) := by
      show ¬ (w₄.names.contains n = true)
      rw [hw₄, (phaseEvents_names evts w₃).1]
      exact hcont
    rw [hstep, phaseDem_regs, if_neg (fun h => hcont5 h.1)]
    exact h5

/-! ### Initial-world facts and concrete test fixtures -/

theorem initWorld_wf : ∀ n, RegionWf (initWorld.regs n) := by
  intro n
  show RegionWf (initRegs n)
  unfold initRegs
  repeat' split
  all_goals
    refine ⟨by norm_num [mkRegion, defaultRegion], by norm_num [mkRegion, defaultRegion],
      ?_, ?_, ?_⟩ <;>
    (intro k; cases k <;> norm_num [mkRegion, defaultRegion, ResMap.get])

theorem initWorld_bounds : ∀ n, ResourceBounds (initWorld.regs n) := by
  intro n
  show ResourceBounds (initRegs n)
  unfold initRegs
  repeat' split
  all_goals
    (intro k; cases k <;>
      constructor <;> norm_num [mkRegion, defaultRegion, ResMap.get])

/-- A tiny two-region fixture: a ready seller and a doubly-deficient buyer. -/
def c2Seller : Region :=
  { resources := ⟨700, 600, 100, 500⟩, max_resources := ⟨1000, 1000, 1000, 1000⟩,
    production_rates := ⟨0, 0, 0, 0⟩,
    consumption_per_pop := ⟨30/100, 20/100, 0, 0⟩,
    population := 100, max_population := 500, happiness := 1/2, tech_level := 1,
    is_alive := true, collapse_cycle := -1 }

def c2Buyer : Region :=
  { resources := ⟨50, 100, 400, 250⟩, max_resources := ⟨500, 500, 500, 500⟩,
    production_rates := ⟨0, 0, 0, 0⟩,
    consumption_per_pop := ⟨0, 0, 0, 0⟩,
    population := 10, max_population := 500, happiness := 1/2, tech_level := 1,
    is_alive := true, collapse_cycle := -1 }

def c2Regs : String → Region := fun n =>
  if n = "S" then c2Seller else if n = "B" then c2Buyer else defaultRegion

/-- An always-accepting acceptance stream (every draw is 0). -/
def rand0 : ℕ → ℚ := fun _ => 0

def c2Out : (String → Region) × TradeState × List TradeRec × ℕ :=
  negotiate_trades rand0 0 1 ["S", "B"] c2Regs [("B", Action.trade)]
    { relationship := [], disrupted := false }

/-- The trade-scenario fixture of the spec: seller 700/1000 water with total
consumption 30 per cycle, buyer 50/500 water choosing "trade". -/
def c9Seller : Region :=
  { resources := ⟨700, 100, 100, 500⟩, max_resources := ⟨1000, 1000, 1000, 1000⟩,
    production_rates := ⟨0, 0, 0, 0⟩,
    consumption_per_pop := ⟨30/100, 0, 0, 0⟩,
    population := 100, max_population := 500, happiness := 1/2, tech_level := 1,
    is_alive := true, collapse_cycle := -1 }

def c9Buyer : Region :=
  { resources := ⟨50, 250, 250, 250⟩, max_resources := ⟨500, 500, 500, 500⟩,
    production_rates := ⟨0, 0, 0, 0⟩,
    consumption_per_pop := ⟨0, 0, 0, 0⟩,
    population := 10, max_population := 500, happiness := 1/2, tech_level := 1,
    is_alive := true, collapse_cycle := -1 }

def c9Regs : String → Region := fun n =>
  if n = "Seller" then c9Seller else if n = "Buyer" then c9Buyer else defaultRegion

def c9Out : (String → Region) × TradeState × List TradeRec × ℕ :=
  negotiate_trades rand0 0 1 ["Seller", "Buyer"] c9Regs [("Buyer", Action.trade)]
    { relationship := [], disrupted := false }

/-- A balanced single-region world used for the `stockpile` capacity check. -/
def c4Region : Region :=
  { resources := ⟨250, 250, 250, 250⟩, max_resources := ⟨500, 500, 500, 500⟩,
    production_rates := ⟨10, 10, 10, 10⟩,
    consumption_per_pop := ⟨1/10, 1/10, 1/10, 1/10⟩,
    population := 50, max_population := 500, happiness := 1/2, tech_level := 1,
    is_alive := true, collapse_cycle := -1 }

def c4World : WorldState :=
  { names := ["A"], regs := fun n => if n = "A" then c4Region else defaultRegion,
    cycle := 0, ts := { relationship := [], disrupted := false } }

/-- A world holding one already-collapsed region, for the freeze checks. -/
def deadRegion : Region :=
  { resources := ⟨100, 100, 100, 100⟩, max_resources := ⟨500, 500, 500, 500⟩,
    production_rates := ⟨10, 10, 10, 10⟩,
    consumption_per_pop := ⟨1/10, 1/10, 1/10, 1/10⟩,
    population := 3, max_population := 500, happiness := 1/2, tech_level := 1,
    is_alive := false, collapse_cycle := 4 }

def deadWorld : WorldState :=
  { names := ["D", "A"],
    regs := fun n => if n = "D" then deadRegion else if n = "A" then c4Region else defaultRegion,
    cycle := 4, ts := { relationship := [], disrupted := false } }

theorem phaseProd_max_eq (w : WorldState) (n : String) :
    ((phaseProd w).regs n).max_resources = (w.regs n).max_resources := by
  rw [phaseProd_regs]
  split
  · exact (prodRegion_eqer _).max_eq
  · rfl

theorem phaseCons_max_eq (w : WorldState) (n : String) :
    ((phaseCons w).regs n).max_resources = (w.regs n).max_resources := by
  rw [phaseCons_regs]
  split
  · exact (consRegion_eqer _).max_eq
  · rfl

theorem phaseDem_max_eq (dec : List (String × Action)) (w : WorldState) (n : String) :
    ((phaseDem dec w).regs n).max_resources = (w.regs n).max_resources := by
  rw [phaseDem_regs]
  split
  · exact demRegion_max _ _ _
  · rfl

/-- Every entry of the initial relationship table carries the score 0.5. -/
theorem initPairs_val : ∀ (l : List String) (p : (String × String) × ℚ),
    p ∈ initPairs l → p.2 = 1/2 := by
  intro l
  induction l with
  | nil => intro p hp; simp [initPairs] at hp
  | cons n rest ih =>
    intro p hp
    rw [initPairs] at hp
    rcases List.mem_append.mp hp with hp | hp
    · obtain ⟨m, -, hm⟩ := List.mem_map.mp hp
      rw [← hm]
    · exact ih p hp

theorem initTs_relRange : RelInRange initWorld.ts := by
  intro p hp
  rw [initPairs_val initNames p hp]
  norm_num

theorem res_ne_facts :
    Res.water ≠ Res.food ∧ Res.water ≠ Res.energy ∧ Res.water ≠ Res.land ∧
    Res.food ≠ Res.water ∧ Res.food ≠ Res.energy ∧ Res.food ≠ Res.land ∧
    Res.energy ≠ Res.water ∧ Res.energy ≠ Res.food ∧ Res.energy ≠ Res.land ∧
    Res.land ≠ Res.water ∧ Res.land ≠ Res.food ∧ Res.land ≠ Res.energy := by
  refine ⟨?_, ?_, ?_, ?_, ?_, ?_, ?_, ?_, ?_, ?_, ?_, ?_⟩ <;> decide

theorem c2_eval : c2Out.2.2.1 =
    [{ cycle := 1, buyer := "B", seller := "S", resource_bought := Res.water,
       amount := 60, resource_sold := Res.energy, exchange_amount := 54 },
     { cycle := 1, buyer := "B", seller := "S", resource_bought := Res.food,
       amount := 60, resource_sold := Res.energy, exchange_amount := 1362/25 }] := by
  norm_num [c2Out, negotiate_trades, TradeState.decay_relationships, buildSellers,
    buildBuyers, buyerFold, buyerDeficitFold, Region.surplus_resources, Region.surplus,
    Region.total_consumption, Region.resource_ratio, RESOURCE_KEYS, c2Regs, c2Seller,
    c2Buyer, ResMap.get, addToPool, processAll, lookupPool, processBuyers, scanSellers,
    TradeState.get_rel, lookupRel, TradeState.update_rel, setRelK, updF, Region.addRes,
    Region.clamp_resources, ResMap.set, clip, setPool, rand0, List.filter, List.foldl,
    max_def, min_def, defaultRegion, Option.getD, Option.isSome,
    show ("B" : String) ≠ "S" from by decide,
    show ("S" : String) ≠ "B" from by decide,
    res_ne_facts.1, res_ne_facts.2.1, res_ne_facts.2.2.1, res_ne_facts.2.2.2.1,
    res_ne_facts.2.2.2.2.1, res_ne_facts.2.2.2.2.2.1, res_ne_facts.2.2.2.2.2.2.1,
    res_ne_facts.2.2.2.2.2.2.2.1, res_ne_facts.2.2.2.2.2.2.2.2.1,
    res_ne_facts.2.2.2.2.2.2.2.2.2.1, res_ne_facts.2.2.2.2.2.2.2.2.2.2.1,
    res_ne_facts.2.2.2.2.2.2.2.2.2.2.2]

theorem c9_eval : c9Out.2.2.1 =
    [{ cycle := 1, buyer := "Buyer", seller := "Seller", resource_bought := Res.water,
       amount := 60, resource_sold := Res.food, exchange_amount := 54 }] := by
  norm_num [c9Out, negotiate_trades, TradeState.decay_relationships, buildSellers,
    buildBuyers, buyerFold, buyerDeficitFold, Region.surplus_resources, Region.surplus,
    Region.total_consumption, Region.resource_ratio, RESOURCE_KEYS, c9Regs, c9Seller,
    c9Buyer, ResMap.get, addToPool, processAll, lookupPool, processBuyers, scanSellers,
    TradeState.get_rel, lookupRel, TradeState.update_rel, setRelK, updF, Region.addRes,
    Region.clamp_resources, ResMap.set, clip, setPool, rand0, List.filter, List.foldl,
    max_def, min_def, defaultRegion, Option.getD, Option.isSome,
    show ("Buyer" : String) ≠ "Seller" from by decide,
    show ("Seller" : String) ≠ "Buyer" from by decide,
    res_ne_facts.1, res_ne_facts.2.1, res_ne_facts.2.2.1, res_ne_facts.2.2.2.1,
    res_ne_facts.2.2.2.2.1, res_ne_facts.2.2.2.2.2.1, res_ne_facts.2.2.2.2.2.2.1,
    res_ne_facts.2.2.2.2.2.2.2.1, res_ne_facts.2.2.2.2.2.2.2.2.1,
    res_ne_facts.2.2.2.2.2.2.2.2.2.1, res_ne_facts.2.2.2.2.2.2.2.2.2.2.1,
    res_ne_facts.2.2.2.2.2.2.2.2.2.2.2]

/-- A `stockpile` decision scales the water/food/energy capacities of an alive
region by 1.004 during the step, whatever else happens. -/
theorem step_max_of_stockpile (evts : List Event) (rand : ℕ → ℚ)
    (dec : List (String × Action)) (w : WorldState) (ctr : ℕ) (n : String)
    (hl : lookupDec dec n = some Action.stockpile)
    (halive : (w.regs n).is_alive = true) :
    ((step evts rand dec w ctr).1.regs n).max_resources =
      ⟨(w.regs n).max_resources.water * (1004/1000),
       (w.regs n).max_resources.food * (1004/1000),
       (w.regs n).max_resources.energy * (1004/1000),
       (w.regs n).max_resources.land⟩ := by
  set w₀ : WorldState := { w with cycle := w.cycle + 1 } with hw₀
  set w₂ := phaseCons (phaseProd w₀) with hw₂
  have e0 : w₀.regs n = w.regs n := rfl
  have m2 : (w₂.regs n).max_resources = (w.regs n).max_resources := by
    rw [hw₂, phaseCons_max_eq, phaseProd_max_eq, e0]
  have a2 : (w₂.regs n).is_alive = true := by
    rw [hw₂, phaseCons_alive_eq, phaseProd_alive_eq, e0]
    exact halive
  have g3 : (phaseActions dec w₂).regs n =
      applyAction Action.stockpile (w₂.regs n) := by
    rw [phaseActions_regs, hl]
    dsimp only
    rw [if_pos a2]
  have m3 : ((phaseActions dec w₂).regs n).max_resources =
      ⟨(w.regs n).max_resources.water * (1004/1000),
       (w.regs n).max_resources.food * (1004/1000),
       (w.regs n).max_resources.energy * (1004/1000),
       (w.regs n).max_resources.land⟩ := by
    rw [g3, applyAction_max_stockpile, m2]
  set w₃ := phaseActions dec w₂ with hw₃
  have m4 : ((phaseEvents evts w₃).regs n).max_resources =
      (w₃.regs n).max_resources := (phaseEvents_const_fields evts w₃ n).2.2.1
  set w₄ := phaseEvents evts w₃ with hw₄
  set tr := negotiate_trades rand ctr w₄.cycle w₄.names w₄.regs dec w₄.ts with htr
  have m5 : (tr.1 n).max_resources = (w₃.regs n).max_resources := by
    rw [htr, (negotiate_trades_eqer rand ctr w₄.cycle w₄.names w₄.regs dec w₄.ts n).max_eq]
    exact m4
  have e6 : ((phaseDem dec { w₄ with regs := tr.1, ts := tr.2.1 }).regs n).max_resources =
      (tr.1 n).max_resources := phaseDem_max_eq dec _ n
  show ((phaseDem dec { w₄ with regs := tr.1, ts := tr.2.1 }).regs n).max_resources = _
  rw [e6, m5, m3]

/-- A region small enough to collapse in a single (event-free) step. -/
def c8Region : Region :=
  { resources := ⟨0, 0, 0, 0⟩, max_resources := ⟨100, 100, 100, 100⟩,
    production_rates := ⟨0, 0, 0, 0⟩, consumption_per_pop := ⟨0, 0, 0, 0⟩,
    population := 1, max_population := 100, happiness := 1/2, tech_level := 1,
    is_alive := true, collapse_cycle := -1 }

def c8World : WorldState :=
  { names := ["A"], regs := fun n => if n = "A" then c8Region else defaultRegion,
    cycle := 0, ts := { relationship := [], disrupted := false } }

theorem prodRegion_c8 : prodRegion c8Region = c8Region := by
  have h := prodRegion_eqer c8Region
  have hres : (prodRegion c8Region).resources = c8Region.resources := by
    apply ResMap.ext_get
    intro k
    rw [prodRegion_get]
    cases k <;>
      norm_num [prodAmt, c8Region, ResMap.get, Region.resource_ratio, max_def, min_def]
  rw [h, hres]

theorem consRegion_c8 : consRegion c8Region = c8Region := by
  have h := consRegion_eqer c8Region
  have hres : (consRegion c8Region).resources = c8Region.resources := by
    apply ResMap.ext_get
    intro k
    rw [consRegion_get]
    cases k <;> norm_num [c8Region, ResMap.get]
  rw [h, hres]

theorem demRegion_c8 (cycle : ℤ) :
    (demRegion cycle none c8Region).is_alive = false := by
  norm_num [demRegion, Region.overall_satisfaction, Region.resource_ratio, RESOURCE_KEYS,
    c8Region, ResMap.get, clip, max_def, min_def]

/-- The fixture region does collapse during the step. -/
theorem c8_step_dead : ((step [] rand0 [] c8World 0).1.regs "A").is_alive = false := by
  set w₀ : WorldState := { c8World with cycle := c8World.cycle + 1 } with hw₀
  have e0 : w₀.regs "A" = c8Region := by
    show c8World.regs "A" = c8Region
    simp [c8World]
  have e1 : (phaseProd w₀).regs "A" = c8Region := by
    rw [phaseProd_regs]
    split
    · rw [e0, prodRegion_c8]
    · exact e0
  have e2 : (phaseCons (phaseProd w₀)).regs "A" = c8Region := by
    rw [phaseCons_regs]
    split
    · rw [e1, consRegion_c8]
    · exact e1
  have e3 : (phaseActions [] (phaseCons (phaseProd w₀))).regs "A" = c8Region := by
    rw [phaseActions_regs]
    exact e2
  set w₃ := phaseActions [] (phaseCons (phaseProd w₀)) with hw₃
  have h4 : phaseEvents [] w₃ = w₃ := rfl
  set tr := negotiate_trades rand0 0 w₃.cycle w₃.names w₃.regs [] w₃.ts with htr
  have e5 : tr.1 "A" = c8Region := by
    rw [htr]
    show (negotiate_trades rand0 0 w₃.cycle w₃.names w₃.regs [] w₃.ts).1 "A" = c8Region
    have hdis : w₃.ts.disrupted = false := rfl
    unfold negotiate_trades
    rw [if_neg (by rw [hdis]; exact Bool.false_ne_true)]
    exact e3
  have hcont : w₃.names.contains "A" = true := by
    show c8World.names.contains "A" = true
    simp [c8World]
  have halive5 : (tr.1 "A").is_alive = true := by
    rw [e5]
    rfl
  show ((phaseDem [] { w₃ with regs := tr.1, ts := tr.2.1 }).regs "A").is_alive = false
  rw [phaseDem_regs, if_pos ⟨hcont, halive5⟩]
  show (demRegion w₃.cycle (lookupDec [] "A") (tr.1 "A")).is_alive = false
  rw [e5]
  exact demRegion_c8 w₃.cycle

/-- When a region's decision this cycle is not `stockpile`, no phase of the
step touches its `max_resources`. -/
theorem step_max_of_not_stockpile (evts : List Event) (rand : ℕ → ℚ)
    (dec : List (String × Action)) (w : WorldState) (ctr : ℕ) (n : String)
    (h : lookupDec dec n ≠ some Action.stockpile) :
    ((step evts rand dec w ctr).1.regs n).max_resources = (w.regs n).max_resources := by
  set w₀ : WorldState := { w with cycle := w.cycle + 1 } with hw₀
  set w₂ := phaseCons (phaseProd w₀) with hw₂
  have e0 : w₀.regs n = w.regs n := rfl
  have m2 : (w₂.regs n).max_resources = (w.regs n).max_resources := by
    rw [hw₂, phaseCons_max_eq, phaseProd_max_eq, e0]
  have m3 : ((phaseActions dec w₂).regs n).max_resources = (w.regs n).max_resources := by
    rw [phaseActions_regs]
    cases hl : lookupDec dec n with
    | none => exact m2
    | some a =>
      dsimp only
      split
      · rw [applyAction_max_not_stockpile a _ (fun hh => h (by rw [hl, hh]))]
        exact m2
      · exact m2
  set w₃ := phaseActions dec w₂ with hw₃
  have m4 : ((phaseEvents evts w₃).regs n).max_resources =
      (w₃.regs n).max_resources := (phaseEvents_const_fields evts w₃ n).2.2.1
  set w₄ := phaseEvents evts w₃ with hw₄
  set tr := negotiate_trades rand ctr w₄.cycle w₄.names w₄.regs dec w₄.ts with htr
  have m5 : (tr.1 n).max_resources = (w₃.regs n).max_resources := by
    rw [htr, (negotiate_trades_eqer rand ctr w₄.cycle w₄.names w₄.regs dec w₄.ts n).max_eq]
    exact m4
  have e6 : ((phaseDem dec { w₄ with regs := tr.1, ts := tr.2.1 }).regs n).max_resources =
      (tr.1 n).max_resources := phaseDem_max_eq dec _ n
  show ((phaseDem dec { w₄ with regs := tr.1, ts := tr.2.1 }).regs n).max_resources = _
  rw [e6, m5, m3]

/-! ## Claim theorems -/

/-- C1: after any `step`, every region's every resource level `r` satisfies
`0 ≤ resources[r] ≤ max_resources[r]` — every phase of the pipeline keeps the
levels inside these bounds (given well-formed non-negative coefficients and
bounds holding before the step). -/
theorem resource_bounds_after_step (evts : List Event) (rand : ℕ → ℚ)
    (dec : List (String × Action)) (w : WorldState) (ctr : ℕ)
    (hwf : ∀ n, RegionWf (w.regs n)) (hb : ∀ n, ResourceBounds (w.regs n)) :
    ∀ n k, 0 ≤ ((step evts rand dec w ctr).1.regs n).resources.get k ∧
      ((step evts rand dec w ctr).1.regs n).resources.get k ≤
        ((step evts rand dec w ctr).1.regs n).max_resources.get k :=
  fun n k => step_bounds evts rand dec w ctr hwf hb n k

theorem resource_bounds_after_step_witness :
    (∀ n, RegionWf (initWorld.regs n)) ∧ (∀ n, ResourceBounds (initWorld.regs n)) ∧
    ∀ n k, 0 ≤ ((step [] rand0 [] initWorld 0).1.regs n).resources.get k ∧
      ((step [] rand0 [] initWorld 0).1.regs n).resources.get k ≤
        ((step [] rand0 [] initWorld 0).1.regs n).max_resources.get k :=
  ⟨initWorld_wf, initWorld_bounds,
    resource_bounds_after_step [] rand0 [] initWorld 0 initWorld_wf initWorld_bounds⟩

/-- C2 counterexample: in the `c2` fixture a single buyer `"B"` with two
deficits executes two trades in one `negotiate_trades` call — the `break` in
the source only stops the seller scan for one `(buyer, resource)` pair, so
"each region appears as the buyer in at most one executed trade" is false. -/
theorem buyer_trades_twice_counterexample :
    ¬ ((c2Out.2.2.1.filter (fun t => decide (t.buyer = "B"))).length ≤ 1) := by
  rw [c2_eval]
  decide

/-- C2 (amended): what the code guarantees is one executed trade per
`(buyer, resource)` pair per `negotiate_trades` call: once a buyer's trade in
a given resource is committed, no further sellers are matched to that same
deficit, but the same buyer may still trade other deficit resources. -/
theorem trade_once_per_buyer_resource (rand : ℕ → ℚ) (ctr : ℕ) (cycle : ℤ)
    (names : List String) (regs : String → Region) (dec : List (String × Action))
    (ts : TradeState) (hnodup : (dec.map Prod.fst).Nodup) :
    ∀ b ρ, countB (negotiate_trades rand ctr cycle names regs dec ts).2.2.1 b ρ ≤ 1 :=
  negotiate_trades_once rand ctr cycle names regs dec ts hnodup

theorem trade_once_per_buyer_resource_witness :
    (([("B", Action.trade)].map Prod.fst).Nodup) ∧
    ∀ b ρ, countB (negotiate_trades rand0 0 1 ["S", "B"] c2Regs [("B", Action.trade)]
      { relationship := [], disrupted := false }).2.2.1 b ρ ≤ 1 :=
  ⟨by simp, trade_once_per_buyer_resource rand0 0 1 ["S", "B"] c2Regs
    [("B", Action.trade)] { relationship := [], disrupted := false } (by simp)⟩

/-- C3: collapse is irreversible and frozen — once a region is marked dead,
its population, every resource level, in fact its whole record, is unchanged
by any sequence of subsequent `step` calls, and it stays dead. -/
theorem collapse_frozen_forever
    (script : List (List Event × (ℕ → ℚ) × List (String × Action)))
    (w : WorldState) (n : String) (hdead : (w.regs n).is_alive = false) :
    ((multiStep script w).regs n).population = (w.regs n).population ∧
    (∀ k, ((multiStep script w).regs n).resources.get k = (w.regs n).resources.get k) ∧
    ((multiStep script w).regs n).is_alive = false := by
  have h := multiStep_dead_frozen script w n hdead
  rw [h]
  exact ⟨rfl, fun _ => rfl, hdead⟩

theorem collapse_frozen_forever_witness :
    (deadWorld.regs "D").is_alive = false ∧
    (((multiStep [([], rand0, [])] deadWorld).regs "D").population =
        (deadWorld.regs "D").population ∧
      (∀ k, ((multiStep [([], rand0, [])] deadWorld).regs "D").resources.get k =
        (deadWorld.regs "D").resources.get k) ∧
      ((multiStep [([], rand0, [])] deadWorld).regs "D").is_alive = false) :=
  ⟨rfl, collapse_frozen_forever [([], rand0, [])] deadWorld "D" rfl⟩

/-- C4 counterexample: `max_resources` is not constant after initialization —
a `stockpile` decision multiplies the water capacity of the `c4` fixture by
1.004 during the step, so it differs from its pre-step value. -/
theorem stockpile_changes_max_counterexample :
    ((step [] rand0 [("A", Action.stockpile)] c4World 0).1.regs "A").max_resources.water ≠
      (c4World.regs "A").max_resources.water := by
  rw [step_max_of_stockpile [] rand0 [("A", Action.stockpile)] c4World 0 "A"
    (by simp [lookupDec]) (by rfl)]
  have h : c4World.regs "A" = c4Region := by simp [c4World]
  rw [h]
  norm_num [c4Region]

/-- C4 (amended): a region's `max_resources` is unchanged by `step` unless the
region is alive and its decision this cycle is `stockpile` (which scales the
water/food/energy capacities by 1.004); no other phase or action touches it. -/
theorem max_resources_frame (evts : List Event) (rand : ℕ → ℚ)
    (dec : List (String × Action)) (w : WorldState) (ctr : ℕ) (n : String)
    (h : lookupDec dec n ≠ some Action.stockpile ∨ (w.regs n).is_alive = false) :
    ((step evts rand dec w ctr).1.regs n).max_resources = (w.regs n).max_resources := by
  rcases h with h | h
  · exact step_max_of_not_stockpile evts rand dec w ctr n h
  · rw [step_dead_frozen evts rand dec w ctr n h]

theorem max_resources_frame_witness :
    (lookupDec [] "A" ≠ some Action.stockpile ∨ (c4World.regs "A").is_alive = false) ∧
    ((step [] rand0 [] c4World 0).1.regs "A").max_resources =
      (c4World.regs "A").max_resources :=
  ⟨Or.inl (by simp [lookupDec]),
    max_resources_frame [] rand0 [] c4World 0 "A" (Or.inl (by simp [lookupDec]))⟩

/-- C5: every relationship score stays within `[0.1, 1.0]` at all times — the
initial table holds 0.5 everywhere (and 0.5 is the lazy default), and a `step`
(whose climate events have non-negative severities) maps a table within range
to a table within range through decay, disruption penalty and trade bumps. -/
theorem relationship_scores_in_range : RelInRange initWorld.ts ∧
    ∀ (evts : List Event) (rand : ℕ → ℚ) (dec : List (String × Action))
      (w : WorldState) (ctr : ℕ), (∀ e ∈ evts, 0 ≤ e.severity) → RelInRange w.ts →
      RelInRange (step evts rand dec w ctr).1.ts :=
  ⟨initTs_relRange, fun evts rand dec w ctr hs hr => step_ts_relRange evts rand dec w ctr hs hr⟩

theorem relationship_scores_in_range_witness :
    (∀ e ∈ ([] : List Event), 0 ≤ e.severity) ∧ RelInRange initWorld.ts ∧
    RelInRange (step [] rand0 [] initWorld 0).1.ts :=
  ⟨fun e he => absurd he (List.not_mem_nil e), relationship_scores_in_range.1,
    relationship_scores_in_range.2 [] rand0 [] initWorld 0
      (fun e he => absurd he (List.not_mem_nil e)) relationship_scores_in_range.1⟩

/-- C6: determinism — two runs with the same seed-derived event oracle,
acceptance-draw stream and per-cycle decision maps, started from the same
initial world, produce identical event sequences, trade logs, and final
region states (`runSim` returns the final world, counter, and per-cycle
event/trade log). -/
theorem run_determinism (ev ev' : ℤ → List Event) (rand rand' : ℕ → ℚ)
    (dec dec' : ℤ → List (String × Action)) (n : ℕ)
    (hev : ∀ c, ev c = ev' c) (hrand : ∀ i, rand i = rand' i)
    (hdec : ∀ c, dec c = dec' c) :
    runSim ev rand dec n initWorld 0 [] = runSim ev' rand' dec' n initWorld 0 [] := by
  rw [funext hev, funext hrand, funext hdec]

theorem run_determinism_witness :
    (∀ c : ℤ, (fun _ : ℤ => ([] : List Event)) c = (fun _ : ℤ => ([] : List Event)) c) ∧
    runSim (fun _ => []) rand0 (fun _ => []) 2 initWorld 0 [] =
      runSim (fun _ => []) rand0 (fun _ => []) 2 initWorld 0 [] :=
  ⟨fun _ => rfl,
    run_determinism (fun _ => []) (fun _ => []) rand0 rand0 (fun _ => []) (fun _ => []) 2
      (fun _ => rfl) (fun _ => rfl) (fun _ => rfl)⟩

/-- C7: `QLearningAgent.update` implements the stated TD rule and epsilon
schedule — when a previous `(state, action)` pair exists the stored value
becomes `Q(s,a) + lr*(reward + gamma*max Q(s',.) - Q(s,a))` and every other
entry is unchanged; with no previous pair the Q-table is unchanged; epsilon
becomes `max(epsilon_end, epsilon*decay)`, hence never drops below the floor
and is non-increasing whenever `decay ≤ 1` and epsilon starts at or above the
floor. -/
theorem q_update_spec (a : QLearningAgent) (s' : QState) (reward : ℚ) :
    (∀ s act, a.last_state = some (s, act) →
      ((a.update s' reward).q_table s act =
        a.q_table s act + a.lr * ((reward + a.gamma * maxQ a.q_table s') - a.q_table s act) ∧
      ∀ t j, ¬(t = s ∧ j = act) → (a.update s' reward).q_table t j = a.q_table t j)) ∧
    (a.last_state = none → (a.update s' reward).q_table = a.q_table) ∧
    (a.update s' reward).epsilon = max a.epsilon_end (a.epsilon * a.epsilon_decay) ∧
    a.epsilon_end ≤ (a.update s' reward).epsilon ∧
    (a.epsilon_decay ≤ 1 → 0 ≤ a.epsilon → a.epsilon_end ≤ a.epsilon →
      (a.update s' reward).epsilon ≤ a.epsilon) := by
  refine ⟨?_, ?_, rfl, le_max_left _ _, ?_⟩
  · intro s act h
    constructor
    · show (QLearningAgent.update a s' reward).q_table s act = _
      unfold QLearningAgent.update
      rw [h]
      dsimp only
      rw [if_pos ⟨rfl, rfl⟩]
    · intro t j htj
      show (QLearningAgent.update a s' reward).q_table t j = _
      unfold QLearningAgent.update
      rw [h]
      dsimp only
      rw [if_neg htj]
  · intro h
    show (QLearningAgent.update a s' reward).q_table = _
    unfold QLearningAgent.update
    rw [h]
  · intro hdecay heps hfloor
    show max a.epsilon_end (a.epsilon * a.epsilon_decay) ≤ a.epsilon
    exact max_le hfloor (by nlinarith)

/-- A concrete agent (the source's default hyperparameters) holding a pending
`(state, action)` pair. -/
def c7Agent : QLearningAgent :=
  { lr := 3/20, gamma := 19/20, epsilon := 1, epsilon_end := 1/20,
    epsilon_decay := 497/500, q_table := fun _ _ => 0,
    last_state := some ((0, 0, 0, 0, 0, 0), (5 : Fin 9)) }

theorem q_update_spec_witness :
    c7Agent.last_state = some ((0, 0, 0, 0, 0, 0), (5 : Fin 9)) ∧
    (c7Agent.update (0, 0, 0, 0, 0, 0) 2).q_table (0, 0, 0, 0, 0, 0) (5 : Fin 9) =
      c7Agent.q_table (0, 0, 0, 0, 0, 0) (5 : Fin 9) +
        c7Agent.lr * ((2 + c7Agent.gamma * maxQ c7Agent.q_table (0, 0, 0, 0, 0, 0)) -
          c7Agent.q_table (0, 0, 0, 0, 0, 0) (5 : Fin 9)) ∧
    c7Agent.epsilon_decay ≤ 1 ∧ 0 ≤ c7Agent.epsilon ∧
    c7Agent.epsilon_end ≤ c7Agent.epsilon ∧
    (c7Agent.update (0, 0, 0, 0, 0, 0) 2).epsilon ≤ c7Agent.epsilon :=
  ⟨rfl,
    ((q_update_spec c7Agent (0, 0, 0, 0, 0, 0) 2).1 (0, 0, 0, 0, 0, 0) (5 : Fin 9) rfl).1,
    by norm_num [c7Agent], by norm_num [c7Agent], by norm_num [c7Agent],
    (q_update_spec c7Agent (0, 0, 0, 0, 0, 0) 2).2.2.2.2
      (by norm_num [c7Agent]) (by norm_num [c7Agent]) (by norm_num [c7Agent])⟩

/-- C8: exactly one terminal reward per collapsed region — the
`AgentManager.update_all` guard (`is_alive or collapse_cycle == world.cycle`)
holds for a region in the very cycle its step kills it, and fails in every
later cycle. -/
theorem terminal_reward_exactly_once (evts : List Event) (rand : ℕ → ℚ)
    (dec : List (String × Action)) (w : WorldState) (ctr : ℕ) (n : String)
    (halive : (w.regs n).is_alive = true)
    (hdead : ((step evts rand dec w ctr).1.regs n).is_alive = false) :
    updateGuard (step evts rand dec w ctr).1 n ∧
    ∀ script : List (List Event × (ℕ → ℚ) × List (String × Action)), script ≠ [] →
      ¬ updateGuard (multiStep script (step evts rand dec w ctr).1) n := by
  constructor
  · exact Or.inr (by
      rw [step_collapse_cycle evts rand dec w ctr n halive hdead,
        step_cycle_eq evts rand dec w ctr])
  · intro script hne hguard
    have hfr := multiStep_dead_frozen script (step evts rand dec w ctr).1 n hdead
    have hlen : 0 < script.length := List.length_pos.mpr hne
    have hcy := multiStep_cycle script (step evts rand dec w ctr).1
    rcases hguard with hguard | hguard
    · rw [hfr] at hguard
      rw [hguard] at hdead
      exact Bool.noConfusion hdead
    · rw [hfr, step_collapse_cycle evts rand dec w ctr n halive hdead, hcy,
        step_cycle_eq evts rand dec w ctr] at hguard
      omega

theorem terminal_reward_exactly_once_witness :
    (c8World.regs "A").is_alive = true ∧
    ((step [] rand0 [] c8World 0).1.regs "A").is_alive = false ∧
    (updateGuard (step [] rand0 [] c8World 0).1 "A" ∧
      ∀ script : List (List Event × (ℕ → ℚ) × List (String × Action)), script ≠ [] →
        ¬ updateGuard (multiStep script (step [] rand0 [] c8World 0).1) "A") :=
  ⟨rfl, c8_step_dead,
    terminal_reward_exactly_once [] rand0 [] c8World 0 "A" rfl c8_step_dead⟩

/-- C9: the spec's trade scenario — the fixture seller (700/1000 water,
consumption 30/cycle) has surplus 610 and offers 183; the fixture buyer
(50/500 water, action "trade") has need 125; and the executed trade over
these two regions moves exactly `min(125, 183, 60) = 60` units of water
(with counter-amount `60*(0.8+0.2*0.5) = 54`). -/
theorem trade_scenario_eval :
    c9Seller.surplus Res.water = 610 ∧
    c9Seller.surplus Res.water * (3/10) = 183 ∧
    (35/100) * c9Buyer.max_resources.get Res.water - c9Buyer.resources.get Res.water = 125 ∧
    c9Out.2.2.1 =
      [{ cycle := 1, buyer := "Buyer", seller := "Seller", resource_bought := Res.water,
         amount := 60, resource_sold := Res.food, exchange_amount := 54 }] := by
  refine ⟨?_, ?_, ?_, c9_eval⟩ <;>
    norm_num [Region.surplus, Region.total_consumption, c9Seller, c9Buyer, ResMap.get]

/-- C10: a region whose happiness lies in `[0, 1]` (with capacities at least 1
and non-negative consumption coefficients and population) still has happiness
in `[0, 1]` after a `step` whose event severities lie in `[0, 1]` — the
demographic blend is a convex combination and every other happiness write
scales by a factor in `[0, 1]` or caps at 1. -/
theorem happiness_in_unit_interval (evts : List Event) (rand : ℕ → ℚ)
    (dec : List (String × Action)) (w : WorldState) (ctr : ℕ) (n : String)
    (hsev : ∀ e ∈ evts, 0 ≤ e.severity ∧ e.severity ≤ 1)
    (hh0 : 0 ≤ (w.regs n).happiness) (hh1 : (w.regs n).happiness ≤ 1)
    (hmax : ∀ k, 1 ≤ (w.regs n).max_resources.get k)
    (hcpp : ∀ k, 0 ≤ (w.regs n).consumption_per_pop.get k)
    (hpop : 0 ≤ (w.regs n).population) :
    0 ≤ ((step evts rand dec w ctr).1.regs n).happiness ∧
      ((step evts rand dec w ctr).1.regs n).happiness ≤ 1 :=
  step_happiness_mem evts rand dec w ctr n hsev hh0 hh1 hmax hcpp hpop

theorem happiness_in_unit_interval_witness :
    (∀ e ∈ ([] : List Event), 0 ≤ e.severity ∧ e.severity ≤ 1) ∧
    (0 ≤ (c4World.regs "A").happiness) ∧ ((c4World.regs "A").happiness ≤ 1) ∧
    (∀ k, 1 ≤ (c4World.regs "A").max_resources.get k) ∧
    (∀ k, 0 ≤ (c4World.regs "A").consumption_per_pop.get k) ∧
    (0 ≤ (c4World.regs "A").population) ∧
    (0 ≤ ((step [] rand0 [] c4World 0).1.regs "A").happiness ∧
      ((step [] rand0 [] c4World 0).1.regs "A").happiness ≤ 1) :=
  ⟨fun e he => absurd he (List.not_mem_nil e),
    by norm_num [c4World, c4Region],
    by norm_num [c4World, c4Region],
    fun k => by cases k <;> norm_num [c4World, c4Region, ResMap.get],
    fun k => by cases k <;> norm_num [c4World, c4Region, ResMap.get],
    by norm_num [c4World, c4Region],
    happiness_in_unit_interval [] rand0 [] c4World 0 "A"
      (fun e he => absurd he (List.not_mem_nil e))
      (by norm_num [c4World, c4Region]) (by norm_num [c4World, c4Region])
      (fun k => by cases k <;> norm_num [c4World, c4Region, ResMap.get])
      (fun k => by cases k <;> norm_num [c4World, c4Region, ResMap.get])
      (by norm_num [c4World, c4Region])⟩

end WorldSim
